import Mathlib

set_option autoImplicit false

/-
Verification of the gaest EST-clustering program against its specification.

The development shallowly embeds the core of the program:
  dna.cpp     - the 15-letter IUPAC nucleotide model and the pairwise
                match-strength table (dna::match_init, compare)
  dynamic.cpp - the Smith-Waterman style local aligner (dynamic::align,
                dynamic::max, dynamic::significant, dynamic::tracepath)
  gaest.cpp   - the memoized similarity cache (check, the hash_map reads in
                objective and in the final graph construction), the DFS
                cluster traversal (traversecluster), the fitness function
                (objective), the cluster printouts, and the mutator.

Real-valued quantities (C++ float and double) are modelled as rationals; all
constants of the program (1.0, 0.5, 0.25, -2.0, -6.0, -0.2, 0.05) are exactly
representable. Where the C++ source performs an integer division (the 1/3 and
1/6 entries of dna::match_init) the embedding keeps the integer division, so
that the embedded table is the table the code actually builds.
-/

namespace Gaest

/-- The nucleotide alphabet of dna.h: enum nucleotide { A, C, G, T, R, Y, K,
M, S, W, B, D, H, V, N, X }. The sentinel X (index 15) is excluded here: the
match table is 15 by 15 (DNAALPHA = 15), input validation drops every
character that maps to X, so X is never stored in a sequence and the X
row/column is never consulted. -/
inductive Nucleotide where
  | A | C | G | T | R | Y | K | M | S | W | B | D | H | V | N
  deriving DecidableEq, Repr

open Nucleotide

/-- Value of the C++ expression 1/3 appearing in dna::match_init: both
operands are int, so this is integer division, equal to 0. -/
def oneThirdCpp : ℚ := ((1 / 3 : ℤ) : ℚ)

/-- Value of the C++ expression 1/6 appearing in dna::match_init: integer
division, equal to 0. -/
def oneSixthCpp : ℚ := ((1 / 6 : ℤ) : ℚ)

/-- The assignments performed by dna::match_init, in source order. Each
element ((a, b), v) stands for the statement matching_[a][b] = v. The
matrix starts zero-initialized (a vector of DNAALPHA vectors of zeros). -/
def matchEntries : List ((Nucleotide × Nucleotide) × ℚ) :=
  [((A, A), 1), ((C, C), 1), ((G, G), 1), ((T, T), 1),
   ((A, R), 1/2), ((A, W), 1/2), ((A, M), 1/2),
   ((R, A), 1/2), ((W, A), 1/2), ((M, A), 1/2),
   ((C, Y), 1/2), ((C, S), 1/2), ((C, M), 1/2),
   ((Y, C), 1/2), ((S, C), 1/2), ((M, C), 1/2),
   ((G, R), 1/2), ((G, S), 1/2), ((G, K), 1/2),
   ((R, G), 1/2), ((S, G), 1/2), ((K, G), 1/2),
   ((T, Y), 1/2), ((T, W), 1/2), ((T, K), 1/2),
   ((Y, T), 1/2), ((W, T), 1/2), ((K, T), 1/2),
   ((R, R), 1/2), ((Y, Y), 1/2), ((K, K), 1/2), ((M, M), 1/2),
   ((S, S), 1/2), ((W, W), 1/2),
   ((A, D), oneThirdCpp), ((A, H), oneThirdCpp), ((A, V), oneThirdCpp),
   ((D, A), oneThirdCpp), ((H, A), oneThirdCpp), ((V, A), oneThirdCpp),
   ((C, B), oneThirdCpp), ((C, H), oneThirdCpp), ((C, V), oneThirdCpp),
   ((B, C), oneThirdCpp), ((H, C), oneThirdCpp), ((V, C), oneThirdCpp),
   ((G, B), oneThirdCpp), ((G, D), oneThirdCpp), ((G, V), oneThirdCpp),
   ((B, G), oneThirdCpp), ((D, G), oneThirdCpp), ((V, G), oneThirdCpp),
   ((T, B), oneThirdCpp), ((T, D), oneThirdCpp), ((T, H), oneThirdCpp),
   ((B, T), oneThirdCpp), ((D, T), oneThirdCpp), ((H, T), oneThirdCpp),
   ((R, D), oneThirdCpp), ((R, V), oneThirdCpp),
   ((D, R), oneThirdCpp), ((V, R), oneThirdCpp),
   ((Y, B), oneThirdCpp), ((Y, H), oneThirdCpp),
   ((B, Y), oneThirdCpp), ((H, Y), oneThirdCpp),
   ((K, B), oneThirdCpp), ((K, D), oneThirdCpp),
   ((B, K), oneThirdCpp), ((D, K), oneThirdCpp),
   ((M, H), oneThirdCpp), ((M, V), oneThirdCpp),
   ((H, M), oneThirdCpp), ((V, M), oneThirdCpp),
   ((S, B), oneThirdCpp), ((S, V), oneThirdCpp),
   ((B, S), oneThirdCpp), ((V, S), oneThirdCpp),
   ((W, D), oneThirdCpp), ((W, H), oneThirdCpp),
   ((D, W), oneThirdCpp), ((H, W), oneThirdCpp),
   ((B, B), oneThirdCpp), ((D, D), oneThirdCpp),
   ((H, H), oneThirdCpp), ((V, V), oneThirdCpp),
   ((A, N), 1/4), ((C, N), 1/4), ((G, N), 1/4), ((T, N), 1/4),
   ((N, A), 1/4), ((N, C), 1/4), ((N, G), 1/4), ((N, T), 1/4),
   ((R, N), 1/4), ((Y, N), 1/4), ((K, N), 1/4), ((M, N), 1/4),
   ((N, R), 1/4), ((N, Y), 1/4), ((N, K), 1/4), ((N, M), 1/4),
   ((S, N), 1/4), ((W, N), 1/4),
   ((N, S), 1/4), ((N, W), 1/4),
   ((B, N), 1/4), ((D, N), 1/4), ((H, N), 1/4), ((V, N), 1/4),
   ((N, B), 1/4), ((N, D), 1/4), ((N, H), 1/4), ((N, V), 1/4),
   ((N, N), 1/4),
   ((R, B), oneSixthCpp), ((R, H), oneSixthCpp),
   ((B, R), oneSixthCpp), ((H, R), oneSixthCpp),
   ((Y, D), oneSixthCpp), ((Y, V), oneSixthCpp),
   ((D, Y), oneSixthCpp), ((V, Y), oneSixthCpp),
   ((K, H), oneSixthCpp), ((K, V), oneSixthCpp),
   ((H, K), oneSixthCpp), ((V, K), oneSixthCpp),
   ((M, B), oneSixthCpp), ((M, D), oneSixthCpp),
   ((B, M), oneSixthCpp), ((D, M), oneSixthCpp),
   ((S, D), oneSixthCpp), ((S, H), oneSixthCpp),
   ((D, S), oneSixthCpp), ((H, S), oneSixthCpp),
   ((W, B), oneSixthCpp), ((W, V), oneSixthCpp),
   ((B, W), oneSixthCpp), ((V, W), oneSixthCpp)]

/-- The match-strength matrix dna::matching_ after dna::match_init has run:
the zero matrix overwritten by the assignments of matchEntries in order. -/
def matching : Nucleotide → Nucleotide → ℚ :=
  matchEntries.foldl
    (fun f e => fun x y => if x = e.1.1 ∧ y = e.1.2 then e.2 else f x y)
    (fun _ _ => 0)

/-- The friend function compare of dna.cpp: returns the match strength of
two nucleotides (dna::matching_[n1][n2]); initialization of the static
tables is guaranteed before the lookup. -/
def compare (n1 n2 : Nucleotide) : ℚ := matching n1 n2

/-- The characters of dna::print_init: the canonical display character of
each nucleotide. -/
def nucprint : Nucleotide → Char
  | A => 'A' | C => 'C' | G => 'G' | T => 'T' | R => 'R'
  | Y => 'Y' | K => 'K' | M => 'M' | S => 'S' | W => 'W'
  | B => 'B' | D => 'D' | H => 'H' | V => 'V' | N => 'N'

/-- Element access into a sequence. The C++ operator[] range-checks and
aborts the program on an out-of-range index; all accesses performed by the
embedded algorithms on the inputs of the theorems below are in range, so a
total function with an arbitrary default is used. -/
def nth (s : List Nucleotide) (i : ℕ) : Nucleotide := s.getD i A

/-- The character dna::letter(i) of the i-th nucleotide of a sequence. -/
def letter (s : List Nucleotide) (i : ℕ) : Char := nucprint (nth s i)

/-- Pointer codes of dynamic.h. -/
def PTRNULL : ℕ := 0

/-- Pointer code for a gap in the bottom sequence (step from the left). -/
def PTRLEFT : ℕ := 1

/-- Pointer code for a gap in the top sequence (step from above). -/
def PTRUP : ℕ := 2

/-- Pointer code for a diagonal (match/mismatch) step. -/
def PTRDIAG : ℕ := 3

/-- Alignment rewards, penalties and significance level of class dynamic.
The C++ members are float (and int for the significance level); they are
modelled as rationals, every constant used by the program being exactly
representable. -/
structure AlignParams where
  match_ : ℚ
  msmatch_ : ℚ
  gapopen_ : ℚ
  gapxtnd_ : ℚ
  significance_ : ℚ

/-- The default parameters DYNMATCH = 1.0, DYNMSMATCH = -2.0,
DYNGAPOPEN = -6.0, DYNGAPXTND = -0.2, DYNSIG = 40 of dynamic.h. -/
def defaultDyn : AlignParams :=
  { match_ := 1, msmatch_ := -2, gapopen_ := -6, gapxtnd_ := -1/5,
    significance_ := 40 }

/-- The helper dynamic::max: index of the maximum of a float array, scanning
from index 1 with a strict comparison, so on ties the smallest index wins.
The call sites pass the four candidate scores [NULL, LEFT, UP, DIAG]. -/
def dynMax (a : List ℚ) : ℕ :=
  (List.range' 1 (a.length - 1)).foldl
    (fun imax i => if a.getD i 0 > a.getD imax 0 then i else imax) 0

/-- Cell (i, j) of the dynamic-programming matrices of dynamic::align: the
pair (scrMatrix_[i][j], ptrMatrix_[i][j]). The first row (j = 0) and the
first column (i = 0) hold the raw match score with a NULL pointer; an
interior cell takes the best of the four candidates
[0, LEFT, UP, DIAG] through dynamic::max. -/
def cell (P : AlignParams) (X Y : List Nucleotide) : ℕ → ℕ → ℚ × ℕ
  | i, 0 =>
    (if compare (nth X i) (nth Y 0) ≠ 0
      then compare (nth X i) (nth Y 0) * P.match_ else 0, PTRNULL)
  | 0, j+1 =>
    (if compare (nth X 0) (nth Y (j+1)) ≠ 0
      then compare (nth X 0) (nth Y (j+1)) * P.match_ else 0, PTRNULL)
  | i+1, j+1 =>
    let l := cell P X Y i (j+1)
    let u := cell P X Y (i+1) j
    let d := cell P X Y i j
    let res := compare (nth X (i+1)) (nth Y (j+1))
    let allscores : List ℚ :=
      [0,
       l.1 + (if l.2 = PTRLEFT then P.gapxtnd_ else P.gapopen_),
       u.1 + (if u.2 = PTRUP then P.gapxtnd_ else P.gapopen_),
       d.1 + (if res ≠ 0 then res * P.match_ else P.msmatch_)]
    let p := dynMax allscores
    (allscores.getD p 0, p)
  termination_by i j => i + j

/-- Score matrix entry scrMatrix_[i][j]. -/
def scr (P : AlignParams) (X Y : List Nucleotide) (i j : ℕ) : ℚ :=
  (cell P X Y i j).1

/-- Pointer matrix entry ptrMatrix_[i][j]. -/
def ptr (P : AlignParams) (X Y : List Nucleotide) (i j : ℕ) : ℕ :=
  (cell P X Y i j).2

/-- The LEFT candidate of an interior cell: the score of the cell to the
left plus a gap-extension penalty if that cell itself points LEFT, a
gap-opening penalty otherwise. -/
def leftCand (P : AlignParams) (X Y : List Nucleotide) (i j : ℕ) : ℚ :=
  scr P X Y (i-1) j +
    (if ptr P X Y (i-1) j = PTRLEFT then P.gapxtnd_ else P.gapopen_)

/-- The UP candidate of an interior cell. -/
def upCand (P : AlignParams) (X Y : List Nucleotide) (i j : ℕ) : ℚ :=
  scr P X Y i (j-1) +
    (if ptr P X Y i (j-1) = PTRUP then P.gapxtnd_ else P.gapopen_)

/-- The DIAG candidate of an interior cell: the score of the diagonally
adjacent cell plus the weighted match strength if the nucleotides match,
the mismatch penalty otherwise. -/
def diagCand (P : AlignParams) (X Y : List Nucleotide) (i j : ℕ) : ℚ :=
  scr P X Y (i-1) (j-1) +
    (if compare (nth X i) (nth Y j) ≠ 0
      then compare (nth X i) (nth Y j) * P.match_ else P.msmatch_)

/-- The four candidates [NULL, LEFT, UP, DIAG] of an interior cell, in the
order of the allscores array of dynamic::align. -/
def allCands (P : AlignParams) (X Y : List Nucleotide) (i j : ℕ) : List ℚ :=
  [0, leftCand P X Y i j, upCand P X Y i j, diagCand P X Y i j]

/-- The predicate dynamic::significant computed from the aligned flag, the
current score and the parameters: false unless the sequences have been
aligned, false if the score is below significance_ * (match_ + 0.05 *
msmatch_), true otherwise. -/
def significant (aligned : Bool) (score : ℚ) (P : AlignParams) : Bool :=
  if !aligned then false
  else if score < P.significance_ * (P.match_ + 1/20 * P.msmatch_) then false
  else true

/-- Running best of the matrix fill: score_, xend_, yend_, all starting
at 0. -/
structure BestSt where
  score : ℚ
  xend : ℕ
  yend : ℕ
  deriving DecidableEq, Repr

/-- The interior cells of the fill in scan order: outer loop j from 1 to
ylen-1, inner loop i from 1 to xlen-1. -/
def interiorCells (xlen ylen : ℕ) : List (ℕ × ℕ) :=
  (List.range' 1 (ylen - 1)).flatMap fun j =>
    (List.range' 1 (xlen - 1)).map fun i => (i, j)

/-- The main fill loop of dynamic::align over the interior cells: the
running best is replaced on strict improvement, and in significance-probe
mode (s = true) the loop returns immediately, with the second component
true, when the improved best satisfies dynamic::significant. During the
fill the aligned_ flag still holds the value it had on entry (aligned0):
the constructor that triggers align leaves it uninitialized and the default
constructor sets it false; it is only assigned (to true) after the loop. -/
def fillLoop (P : AlignParams) (X Y : List Nucleotide) (s aligned0 : Bool) :
    List (ℕ × ℕ) → BestSt → BestSt × Bool
  | [], b => (b, false)
  | c :: rest, b =>
    if scr P X Y c.1 c.2 > b.score then
      let b2 : BestSt := ⟨scr P X Y c.1 c.2, c.1, c.2⟩
      if s && significant aligned0 b2.score P then (b2, true)
      else fillLoop P X Y s aligned0 rest b2
    else fillLoop P X Y s aligned0 rest b

/-- The observable outcome of dynamic::align: the final score_, xend_,
yend_ and aligned_ members. -/
structure AlignResult where
  score : ℚ
  xend : ℕ
  yend : ℕ
  aligned : Bool
  deriving DecidableEq, Repr

/-- The function dynamic::align. The matrix contents are given by cell; the
observable effect beyond the matrices is the best tracking of fillLoop.
When the fill runs to completion the aligned_ flag is set to true; when the
significance probe exits early the function returns before that assignment,
so aligned_ keeps its entry value aligned0. -/
def align (P : AlignParams) (X Y : List Nucleotide) (s aligned0 : Bool) :
    AlignResult :=
  let r := fillLoop P X Y s aligned0 (interiorCells X.length Y.length) ⟨0, 0, 0⟩
  ⟨r.1.score, r.1.xend, r.1.yend, if r.2 then aligned0 else true⟩

/-- First pass of dynamic::tracepath: walk the pointers from (xend, yend)
until a NULL pointer, counting the steps (pathlength_) and returning the
final coordinates (xbegin_, ybegin_). Each step strictly decreases i + j,
so a fuel of xend + yend + 1 always suffices; none is returned only on
fuel exhaustion (unreachable from the call site) or on an unrecognized
pointer value, on which the program aborts. -/
def tracePass1 (pt : ℕ → ℕ → ℕ) : ℕ → ℕ → ℕ → Option (ℕ × ℕ × ℕ)
  | 0, _, _ => none
  | fuel+1, i, j =>
    if pt i j = PTRNULL then some (0, i, j)
    else if pt i j = PTRDIAG then
      (tracePass1 pt fuel (i-1) (j-1)).map fun r => (r.1 + 1, r.2.1, r.2.2)
    else if pt i j = PTRLEFT then
      (tracePass1 pt fuel (i-1) j).map fun r => (r.1 + 1, r.2.1, r.2.2)
    else if pt i j = PTRUP then
      (tracePass1 pt fuel i (j-1)).map fun r => (r.1 + 1, r.2.1, r.2.2)
    else none

/-- The character written into the align string for a diagonal step with
match strength res: a bar on an exact match, a blank on a total mismatch,
a colon on a partial match. -/
def matchChar (res : ℚ) : Char :=
  if res = 1 then '|' else if res = 0 then ' ' else ':'

/-- Second pass of dynamic::tracepath: starting again from (xend, yend),
write the three display strings from index pathlength-1 downward. The
argument k is the number of indices still to fill. A DIAG step emits both
letters with matchChar; a LEFT step emits the top letter over a dash; an UP
step a dash over the bottom letter; the default branch (reached at a NULL
pointer) emits like DIAG but does not move. -/
def tracePass2 (pt : ℕ → ℕ → ℕ) (cmp : ℕ → ℕ → ℚ) (l1 l2 : ℕ → Char) :
    ℕ → ℕ → ℕ → List Char × List Char × List Char
  | 0, _, _ => ([], [], [])
  | k+1, i, j =>
    if pt i j = PTRDIAG then
      let r := tracePass2 pt cmp l1 l2 k (i-1) (j-1)
      (r.1 ++ [l1 i], r.2.1 ++ [l2 j], r.2.2 ++ [matchChar (cmp i j)])
    else if pt i j = PTRLEFT then
      let r := tracePass2 pt cmp l1 l2 k (i-1) j
      (r.1 ++ [l1 i], r.2.1 ++ ['-'], r.2.2 ++ [' '])
    else if pt i j = PTRUP then
      let r := tracePass2 pt cmp l1 l2 k i (j-1)
      (r.1 ++ ['-'], r.2.1 ++ [l2 j], r.2.2 ++ [' '])
    else
      let r := tracePass2 pt cmp l1 l2 k i j
      (r.1 ++ [l1 i], r.2.1 ++ [l2 j], r.2.2 ++ [matchChar (cmp i j)])

/-- The traceback products of dynamic::tracepath: pathlength_, the begin
coordinates, and the three display strings top_, bottom_, align_. -/
structure TraceResult where
  pathlength : ℕ
  xbegin : ℕ
  ybegin : ℕ
  top_ : List Char
  bottom_ : List Char
  align_ : List Char
  deriving DecidableEq, Repr

/-- The function dynamic::tracepath run from the end coordinates found by
align: the first pass gives pathlength_ and the begin coordinates, the
second fills the display strings. -/
def tracepath (P : AlignParams) (X Y : List Nucleotide) (xend yend : ℕ) :
    Option TraceResult :=
  (tracePass1 (ptr P X Y) (xend + yend + 1) xend yend).map fun r =>
    let s2 := tracePass2 (ptr P X Y)
      (fun i j => compare (nth X i) (nth Y j)) (letter X) (letter Y)
      r.1 xend yend
    ⟨r.1, r.2.1, r.2.2, s2.1, s2.2.1, s2.2.2⟩

/-- Membership in the four plain bases {A, C, G, T}. -/
def IsBase (x : Nucleotide) : Prop := x = A ∨ x = C ∨ x = G ∨ x = T

instance decIsBase (x : Nucleotide) : Decidable (IsBase x) :=
  inferInstanceAs (Decidable (x = A ∨ x = C ∨ x = G ∨ x = T))

/-- The pure best-tracking fold underlying fillLoop when no early exit
occurs: replace the best on strict improvement. -/
def bestFold (P : AlignParams) (X Y : List Nucleotide)
    (l : List (ℕ × ℕ)) (b : BestSt) : BestSt :=
  l.foldl
    (fun b c =>
      if scr P X Y c.1 c.2 > b.score then ⟨scr P X Y c.1 c.2, c.1, c.2⟩ else b)
    b


/-- The similarity cache, the global vector of per-row hash tables
scores of gaest.cpp: conceptually (i, j) ↦ bool. Modelled as an
association list keyed by the ordered pair (i, j): insertion prepends and
lookup returns the first hit, matching assignment / lookup on hash_map. -/
abbrev Cache : Type := List ((ℕ × ℕ) × Bool)

/-- Lookup of key j in row i (scores[i].find(j)); none when absent. -/
def lookupC (c : Cache) (i j : ℕ) : Option Bool :=
  (c.find? fun e => decide (e.1 = (i, j))).map (fun e => e.2)

/-- Assignment scores[i][j] = v. -/
def setC (c : Cache) (i j : ℕ) (v : Bool) : Cache := ((i, j), v) :: c

/-- The function check of gaest.cpp: when row i has no entry for key j,
align sequences i and j in significance-probe mode and store the
significant() verdict under both (j, i) and (i, j) (the source assigns
scores[j][i] first through the chained assignment). The verdict of the
probe alignment of the pair is abstracted into the function argument; the
returned Bool records whether an alignment was performed by this call. -/
def check (verdict : ℕ → ℕ → Bool) (c : Cache) (i j : ℕ) : Cache × Bool :=
  if (lookupC c i j).isSome then (c, false)
  else (setC (setC c j i (verdict i j)) i j (verdict i j), true)

/-- One hash_map operator[] read, as performed by objective and by the
final graph construction in main (scores[i][j] in an rvalue position):
when the key is absent a default false entry is inserted, under (i, j)
only; the value found or inserted is returned. -/
def readIns (c : Cache) (i j : ℕ) : Cache × Bool :=
  match lookupC c i j with
  | some v => (c, v)
  | none => (setC c i j false, false)

/-- Append b to the adjacency list of a (edges[a].push_back(b)). A write
beyond the vector length is dropped; the program would already have
aborted on such an index, and the theorems below restrict genomes to the
vertex range. -/
def pushEdge (e : List (List ℕ)) (a b : ℕ) : List (List ℕ) :=
  e.set a (e.getD a [] ++ [b])

/-- The edge-building loop shared by objective and by the final
cluster-graph construction of main: for each position i with j =
genome[i], read scores[i][j] through operator[] and, when the verdict is
true, push j onto edges[i] and i onto edges[j]. Returns the cache
(possibly extended by default-false inserts) with the adjacency lists. -/
def buildEdges (c : Cache) (g : List ℕ) : Cache × List (List ℕ) :=
  (List.range g.length).foldl
    (fun st i =>
      let j := g.getD i 0
      let r := readIns st.1 i j
      if r.2 then (r.1, pushEdge (pushEdge st.2 i j) j i) else (r.1, st.2))
    (c, List.replicate g.length [])

/-- The DFS helper traversecluster of gaest.cpp: a visited node returns 0,
otherwise the node is emitted (pre-order), marked visited, the adjacency
list is traversed recursively and the number of traversed nodes is
returned. The C++ recursion is bounded only by the call stack; a fuel
argument makes it structural here, and every use below supplies fuel
exceeding the number of unvisited nodes, which the correctness lemmas show
is enough. Returns (visited flags, count, emitted vertices in order). -/
def traversecluster (edges : List (List ℕ)) :
    ℕ → List Bool → ℕ → List Bool × ℕ × List ℕ
  | 0, nodes, _ => (nodes, 0, [])
  | fuel+1, nodes, i =>
    if nodes.getD i false then (nodes, 0, [])
    else
      (edges.getD i []).foldl
        (fun st j =>
          let r := traversecluster edges fuel st.1 j
          (r.1, st.2.1 + r.2.1, st.2.2 ++ r.2.2))
        (nodes.set i true, 1, [i])

/-- The GA fitness callback objective of gaest.cpp: build the cluster
graph from the genome through the cache, then for every vertex in index
order that is still unvisited run traversecluster and add
(count - 1)^2. The C++ accumulates x * x with int x = count - 1 into a
float; the values are integers and are modelled in ℤ. -/
def objective (c : Cache) (g : List ℕ) : ℤ :=
  ((List.range g.length).foldl
    (fun st i =>
      if st.1.getD i false then st
      else
        let r := traversecluster (buildEdges c g).2 (g.length + 1) st.1 i
        (r.1, st.2 + ((r.2.1 : ℤ) - 1) ^ 2))
    (List.replicate g.length false, 0)).2

/-- The cluster printout of main when an output file is given: a vertex
starts a new "Cluster k" listing only when it is unvisited AND its
adjacency list is nonempty; the final "Unclustered sequences" listing
shows every vertex still unvisited. Returns (cluster listings in order,
unclustered vertices). -/
def filePathOut (edges : List (List ℕ)) (n : ℕ) :
    List (List ℕ) × List ℕ :=
  let st := (List.range n).foldl
    (fun st i =>
      if !(st.1.getD i false) && !(edges.getD i []).isEmpty then
        let r := traversecluster edges (n + 1) st.1 i
        (r.1, st.2 ++ [r.2.2])
      else st)
    (List.replicate n false, [])
  (st.2, (List.range n).filter fun i => !(st.1.getD i false))

/-- The cluster printout of main on stdout (no output file given): the
guard on a nonempty adjacency list is absent from the source, so every
unvisited vertex starts a "Cluster k" listing, singletons included, and
the subsequent "Unclustered sequences" listing is always empty. -/
def stdoutPathOut (edges : List (List ℕ)) (n : ℕ) :
    List (List ℕ) × List ℕ :=
  let st := (List.range n).foldl
    (fun st i =>
      if !(st.1.getD i false) then
        let r := traversecluster edges (n + 1) st.1 i
        (r.1, st.2 ++ [r.2.2])
      else st)
    (List.replicate n false, [])
  (st.2, (List.range n).filter fun i => !(st.1.getD i false))

/-- One cache-touching operation of a run: a check call (performed by the
initializer and the mutator) or the operator[] reads of one objective
evaluation or of the final graph construction on a genome. -/
inductive CacheOp where
  | chk (i j : ℕ)
  | obj (g : List ℕ)

/-- Run one operation on the pair (cache, log of the pairs aligned so
far). -/
def runOp (verdict : ℕ → ℕ → Bool) (st : Cache × List (ℕ × ℕ)) :
    CacheOp → Cache × List (ℕ × ℕ)
  | CacheOp.chk i j =>
    let r := check verdict st.1 i j
    (r.1, if r.2 then st.2 ++ [(i, j)] else st.2)
  | CacheOp.obj g => ((buildEdges st.1 g).1, st.2)

/-- Run a trace of operations. -/
def runTrace (verdict : ℕ → ℕ → Bool) (st : Cache × List (ℕ × ℕ)) :
    List CacheOp → Cache × List (ℕ × ℕ)
  | [] => st
  | op :: rest => runTrace verdict (runOp verdict st op) rest

/-- Draw a value distinct from i by rejection (the while loop around
GARandomInt): values are taken from the front of the stream of draws;
none models running out of supplied draws. -/
def drawNE (i : ℕ) : List ℕ → Option (ℕ × List ℕ)
  | [] => none
  | d :: rest => if d = i then drawNE i rest else some (d, rest)

/-- One mutation of the mutator: draw position i, draw value j ≠ i by
rejection, call check(i, j) for its caching side effect, and set
genome[i] = j. Returns the new cache, genome, remaining draws and the
performed pair (i, j). -/
def mutateOne (verdict : ℕ → ℕ → Bool) (c : Cache) (g : List ℕ)
    (draws : List ℕ) : Option (Cache × List ℕ × List ℕ × ℕ × ℕ) :=
  match draws with
  | [] => none
  | i :: rest =>
    match drawNE i rest with
    | none => none
    | some (j, rest2) =>
      some ((check verdict c i j).1, g.set i j, rest2, i, j)

/-- The mutation loop of the mutator: perform exactly k mutations,
collecting the performed (position, value) pairs in order. -/
def mutLoop (verdict : ℕ → ℕ → Bool) :
    ℕ → Cache → List ℕ → List ℕ →
    Option (Cache × List ℕ × List ℕ × List (ℕ × ℕ))
  | 0, c, g, d => some (c, g, d, [])
  | k+1, c, g, d =>
    match mutateOne verdict c g d with
    | none => none
    | some (c2, g2, d2, i, j) =>
      (mutLoop verdict k c2 g2 d2).map fun r =>
        (r.1, r.2.1, r.2.2.1, (i, j) :: r.2.2.2)

/-- The GA mutation callback mutator of gaest.cpp. total is
static_cast<int>(floor(rate * length)), modelled in ℤ. When total = 0 a
single mutation is performed exactly when the Bernoulli draw
GAFlipCoin(rate * length) fires (the coin argument), returning 1,
otherwise nothing happens and 0 is returned; when total ≠ 0 the loop
performs max(total, 0) mutations and total is returned. The random stream
is the draws list; the result carries the final cache, genome, remaining
draws and the returned count. -/
def mutator (verdict : ℕ → ℕ → Bool) (rate : ℚ) (coin : Bool) (c : Cache)
    (g : List ℕ) (draws : List ℕ) :
    Option (Cache × List ℕ × List ℕ × ℤ) :=
  if (⌊rate * (g.length : ℚ)⌋ : ℤ) = 0 then
    if coin then
      (mutateOne verdict c g draws).map fun r => (r.1, r.2.1, r.2.2.1, 1)
    else some (c, g, draws, 0)
  else
    (mutLoop verdict (⌊rate * (g.length : ℚ)⌋).toNat c g draws).map
      fun r => (r.1, r.2.1, r.2.2.1, ⌊rate * (g.length : ℚ)⌋)

/-- Undirected adjacency of the cluster graph as the spec describes it:
an edge joins i and genome[i] exactly when the cached verdict for
(i, genome[i]) is true. -/
def adjacent (c : Cache) (g : List ℕ) (a b : ℕ) : Prop :=
  ∃ i < g.length, lookupC c i (g.getD i 0) = some true ∧
    ((a = i ∧ b = g.getD i 0) ∨ (b = i ∧ a = g.getD i 0))

instance decAdjacent (c : Cache) (g : List ℕ) (a b : ℕ) :
    Decidable (adjacent c g a b) := by
  unfold adjacent; infer_instance

/-- Spec-side reachability: the reflexive-transitive closure of
adjacent. -/
def Reach (c : Cache) (g : List ℕ) : ℕ → ℕ → Prop :=
  Relation.ReflTransGen (adjacent c g)

/-- Executable reachability: length-many rounds of neighbor expansion
inside the vertex range, starting from a singleton. Proved below to
coincide with Reach on range-valid genomes. -/
def reachSet (c : Cache) (g : List ℕ) (k : ℕ) (a : ℕ) : Finset ℕ :=
  (fun s => s ∪ (Finset.range g.length).filter
      fun b => ∃ x ∈ s, adjacent c g x b)^[k] {a}

/-- Boolean form of spec-side reachability. -/
def reachB (c : Cache) (g : List ℕ) (a b : ℕ) : Bool :=
  decide (b ∈ reachSet c g g.length a)

/-- The connected component of a vertex in the spec's cluster graph. -/
def component (c : Cache) (g : List ℕ) (i : ℕ) : Finset ℕ :=
  (Finset.range g.length).filter fun b => reachB c g i b = true

/-- The set of connected components of the spec's cluster graph. -/
def components (c : Cache) (g : List ℕ) : Finset (Finset ℕ) :=
  (Finset.range g.length).image (component c g)

/-- The spec's fitness formula: the sum, over the connected components of
the cluster graph, of (k - 1)^2 for a component of size k. -/
def specObjective (c : Cache) (g : List ℕ) : ℤ :=
  ∑ comp ∈ components c g, ((comp.card : ℤ) - 1) ^ 2

/-- The in-range vertices whose visited flag is still false: the measure
that bounds the recursion depth of traversecluster. -/
def unvisitedF (n : ℕ) (nodes : List Bool) : Finset ℕ :=
  (Finset.range n).filter fun v => nodes.getD v false = false

end Gaest

/-- C1: the claim states that compare realizes the match-strength table of
section 4.1, with 1/3 for a base against a three-letter ambiguity containing
it and for a three-letter ambiguity against itself, 1/6 for a two-letter
versus three-letter ambiguity with a two-base intersection, and in
particular compare(B,B) = 1/3 within 1e-12. The code writes every 1/3 and
1/6 entry of the table with C++ integer division, which yields 0; this
theorem evaluates the embedded table at those entries: compare(A,D),
compare(B,B), compare(R,B) are all 0 (so compare(B,B) is not within 1e-12
of 1/3), while the pinned values compare(A,R) = 0.5, compare(A,Y) = 0.0 and
compare(N,N) = 0.25 do hold. The spec itself (section 9) mandates the
intended real values and flags the integer division as a source bug, so the
code, not the claim, is wrong. -/
theorem c1_match_table_integer_division :
    Gaest.compare Gaest.Nucleotide.A Gaest.Nucleotide.D = 0 ∧
    Gaest.compare Gaest.Nucleotide.B Gaest.Nucleotide.B = 0 ∧
    Gaest.compare Gaest.Nucleotide.R Gaest.Nucleotide.B = 0 ∧
    ¬ |Gaest.compare Gaest.Nucleotide.B Gaest.Nucleotide.B - 1/3| ≤
        1/1000000000000 ∧
    Gaest.compare Gaest.Nucleotide.A Gaest.Nucleotide.R = 1/2 ∧
    Gaest.compare Gaest.Nucleotide.A Gaest.Nucleotide.Y = 0 ∧
    Gaest.compare Gaest.Nucleotide.N Gaest.Nucleotide.N = 1/4 := by
  refine ⟨by decide, by decide, by decide, ?_, rfl, by decide, rfl⟩
  have h : Gaest.compare Gaest.Nucleotide.B Gaest.Nucleotide.B = 0 := by decide
  rw [h, show ((0:ℚ) - 1/3) = -(1/3) by ring, abs_neg,
    abs_of_nonneg (by norm_num : (0:ℚ) ≤ 1/3)]
  norm_num

namespace Gaest

open Nucleotide

/-- Evaluation of the match table on the base pairs needed below. -/
theorem compare_AA : compare A A = 1 := rfl

/-- Evaluation of compare on A, C. -/
theorem compare_AC : compare A C = 0 := rfl

/-- Evaluation of compare on A, G. -/
theorem compare_AG : compare A G = 0 := rfl

/-- Evaluation of compare on A, T. -/
theorem compare_AT : compare A T = 0 := rfl

/-- Evaluation of compare on C, A. -/
theorem compare_CA : compare C A = 0 := rfl

/-- Evaluation of compare on C, C. -/
theorem compare_CC : compare C C = 1 := rfl

/-- Evaluation of compare on C, G. -/
theorem compare_CG : compare C G = 0 := rfl

/-- Evaluation of compare on C, T. -/
theorem compare_CT : compare C T = 0 := rfl

/-- Evaluation of compare on G, A. -/
theorem compare_GA : compare G A = 0 := rfl

/-- Evaluation of compare on G, C. -/
theorem compare_GC : compare G C = 0 := rfl

/-- Evaluation of compare on G, G. -/
theorem compare_GG : compare G G = 1 := rfl

/-- Evaluation of compare on G, T. -/
theorem compare_GT : compare G T = 0 := rfl

/-- Evaluation of compare on T, A. -/
theorem compare_TA : compare T A = 0 := rfl

/-- Evaluation of compare on T, C. -/
theorem compare_TC : compare T C = 0 := rfl

/-- Evaluation of compare on T, G. -/
theorem compare_TG : compare T G = 0 := rfl

/-- Evaluation of compare on T, T. -/
theorem compare_TT : compare T T = 1 := rfl

/-- Full characterization of dynamic::max on a four-element array: the
result is the first index attaining the maximum, i.e. an index is returned
exactly when it strictly beats every earlier entry and weakly beats every
later entry. -/
theorem dynMax_four (c0 c1 c2 c3 : ℚ) :
    (dynMax [c0, c1, c2, c3] = 0 ∧ c1 ≤ c0 ∧ c2 ≤ c0 ∧ c3 ≤ c0) ∨
    (dynMax [c0, c1, c2, c3] = 1 ∧ c0 < c1 ∧ c2 ≤ c1 ∧ c3 ≤ c1) ∨
    (dynMax [c0, c1, c2, c3] = 2 ∧ c0 < c2 ∧ c1 < c2 ∧ c3 ≤ c2) ∨
    (dynMax [c0, c1, c2, c3] = 3 ∧ c0 < c3 ∧ c1 < c3 ∧ c2 < c3) := by
  rcases le_or_lt c1 c0 with h1 | h1
  · have h1n : ¬ c0 < c1 := not_lt.2 h1
    rcases le_or_lt c2 c0 with h2 | h2
    · have h2n : ¬ c0 < c2 := not_lt.2 h2
      rcases le_or_lt c3 c0 with h3 | h3
      · have h3n : ¬ c0 < c3 := not_lt.2 h3
        left
        exact ⟨by simp [dynMax, List.range', h1n, h2n, h3n], h1, h2, h3⟩
      · rcases le_or_lt c3 c0 with h3x | h3x
        · exact absurd h3 (not_lt.2 h3x)
        · right; right; right
          exact ⟨by simp [dynMax, List.range', h1n, h2n, h3],
            h3, lt_of_le_of_lt h1 h3, lt_of_le_of_lt h2 h3⟩
    · rcases le_or_lt c3 c2 with h3 | h3
      · have h3n : ¬ c2 < c3 := not_lt.2 h3
        right; right; left
        exact ⟨by simp [dynMax, List.range', h1n, h2, h3n],
          h2, lt_of_le_of_lt h1 h2, h3⟩
      · right; right; right
        exact ⟨by simp [dynMax, List.range', h1n, h2, h3],
          lt_trans h2 h3, lt_of_le_of_lt (le_of_lt (lt_of_le_of_lt h1 h2)) h3,
          h3⟩
  · rcases le_or_lt c2 c1 with h2 | h2
    · have h2n : ¬ c1 < c2 := not_lt.2 h2
      rcases le_or_lt c3 c1 with h3 | h3
      · have h3n : ¬ c1 < c3 := not_lt.2 h3
        right; left
        exact ⟨by simp [dynMax, List.range', h1, h2n, h3n], h1, h2, h3⟩
      · right; right; right
        exact ⟨by simp [dynMax, List.range', h1, h2n, h3],
          lt_trans h1 h3, h3, lt_of_le_of_lt h2 h3⟩
    · rcases le_or_lt c3 c2 with h3 | h3
      · have h3n : ¬ c2 < c3 := not_lt.2 h3
        right; right; left
        exact ⟨by simp [dynMax, List.range', h1, h2, h3n],
          lt_trans h1 h2, h2, h3⟩
      · right; right; right
        exact ⟨by simp [dynMax, List.range', h1, h2, h3],
          lt_trans (lt_trans h1 h2) h3, lt_trans h2 h3, h3⟩

/-- An interior cell stores the first-maximum index of its candidate array
and the corresponding score. -/
theorem cell_interior (P : AlignParams) (X Y : List Nucleotide) (i j : ℕ) :
    cell P X Y (i+1) (j+1) =
      ((allCands P X Y (i+1) (j+1)).getD
          (dynMax (allCands P X Y (i+1) (j+1))) 0,
        dynMax (allCands P X Y (i+1) (j+1))) := by
  simp [cell, allCands, leftCand, upCand, diagCand, scr, ptr]

end Gaest

/-- C4 (amended): for every interior cell (i+1, j+1) the stored score is
the maximum of the four candidates [NULL = 0, LEFT, UP, DIAG], and the
stored pointer is the FIRST candidate attaining that maximum in the order
NULL, LEFT, UP, DIAG: dynamic::max scans with a strict comparison, so on
equality NULL beats LEFT beats UP beats DIAG (the claim states the
opposite tie-breaking; see the counterexample). -/
theorem c4_first_maximum_wins (P : Gaest.AlignParams)
    (X Y : List Gaest.Nucleotide) (i j : ℕ) :
    Gaest.scr P X Y (i+1) (j+1) =
      (Gaest.allCands P X Y (i+1) (j+1)).getD
        (Gaest.ptr P X Y (i+1) (j+1)) 0 ∧
    ((0:ℚ) ≤ Gaest.scr P X Y (i+1) (j+1) ∧
      Gaest.leftCand P X Y (i+1) (j+1) ≤ Gaest.scr P X Y (i+1) (j+1) ∧
      Gaest.upCand P X Y (i+1) (j+1) ≤ Gaest.scr P X Y (i+1) (j+1) ∧
      Gaest.diagCand P X Y (i+1) (j+1) ≤ Gaest.scr P X Y (i+1) (j+1)) ∧
    (Gaest.ptr P X Y (i+1) (j+1) = Gaest.PTRNULL ∨
      (Gaest.ptr P X Y (i+1) (j+1) = Gaest.PTRLEFT ∧
        0 < Gaest.leftCand P X Y (i+1) (j+1)) ∨
      (Gaest.ptr P X Y (i+1) (j+1) = Gaest.PTRUP ∧
        0 < Gaest.upCand P X Y (i+1) (j+1) ∧
        Gaest.leftCand P X Y (i+1) (j+1) <
          Gaest.upCand P X Y (i+1) (j+1)) ∨
      (Gaest.ptr P X Y (i+1) (j+1) = Gaest.PTRDIAG ∧
        0 < Gaest.diagCand P X Y (i+1) (j+1) ∧
        Gaest.leftCand P X Y (i+1) (j+1) <
          Gaest.diagCand P X Y (i+1) (j+1) ∧
        Gaest.upCand P X Y (i+1) (j+1) <
          Gaest.diagCand P X Y (i+1) (j+1))) := by
  have hc := Gaest.cell_interior P X Y i j
  have hp : Gaest.ptr P X Y (i+1) (j+1) =
      Gaest.dynMax (Gaest.allCands P X Y (i+1) (j+1)) := by
    unfold Gaest.ptr; rw [hc]
  have hs : Gaest.scr P X Y (i+1) (j+1) =
      (Gaest.allCands P X Y (i+1) (j+1)).getD
        (Gaest.dynMax (Gaest.allCands P X Y (i+1) (j+1))) 0 := by
    unfold Gaest.scr; rw [hc]
  have hd := Gaest.dynMax_four 0 (Gaest.leftCand P X Y (i+1) (j+1))
    (Gaest.upCand P X Y (i+1) (j+1)) (Gaest.diagCand P X Y (i+1) (j+1))
  have hall : Gaest.allCands P X Y (i+1) (j+1) =
      [0, Gaest.leftCand P X Y (i+1) (j+1),
        Gaest.upCand P X Y (i+1) (j+1),
        Gaest.diagCand P X Y (i+1) (j+1)] := rfl
  rw [hall] at hp hs
  rcases hd with ⟨hk, ha, hb, hcc⟩ | ⟨hk, ha, hb, hcc⟩ |
    ⟨hk, ha, hb, hcc⟩ | ⟨hk, ha, hb, hcc⟩
  · have hpn : Gaest.ptr P X Y (i+1) (j+1) = 0 := by rw [hp, hk]
    have hsn : Gaest.scr P X Y (i+1) (j+1) = 0 := by rw [hs, hk]; rfl
    refine ⟨by rw [hall, hpn, hsn]; rfl, ⟨le_of_eq hsn.symm, ?_, ?_, ?_⟩,
      Or.inl hpn⟩ <;> rw [hsn] <;> assumption
  · have hpn : Gaest.ptr P X Y (i+1) (j+1) = 1 := by rw [hp, hk]
    have hsn : Gaest.scr P X Y (i+1) (j+1) =
        Gaest.leftCand P X Y (i+1) (j+1) := by rw [hs, hk]; rfl
    refine ⟨by rw [hall, hpn, hsn]; rfl, ⟨?_, le_of_eq hsn.symm, ?_, ?_⟩,
      Or.inr (Or.inl ⟨hpn, ha⟩)⟩ <;> rw [hsn]
    · exact le_of_lt ha
    · exact hb
    · exact hcc
  · have hpn : Gaest.ptr P X Y (i+1) (j+1) = 2 := by rw [hp, hk]
    have hsn : Gaest.scr P X Y (i+1) (j+1) =
        Gaest.upCand P X Y (i+1) (j+1) := by rw [hs, hk]; rfl
    refine ⟨by rw [hall, hpn, hsn]; rfl, ⟨?_, ?_, le_of_eq hsn.symm, ?_⟩,
      Or.inr (Or.inr (Or.inl ⟨hpn, ha, hb⟩))⟩ <;> rw [hsn]
    · exact le_of_lt ha
    · exact le_of_lt hb
    · exact hcc
  · have hpn : Gaest.ptr P X Y (i+1) (j+1) = 3 := by rw [hp, hk]
    have hsn : Gaest.scr P X Y (i+1) (j+1) =
        Gaest.diagCand P X Y (i+1) (j+1) := by rw [hs, hk]; rfl
    refine ⟨by rw [hall, hpn, hsn]; rfl, ⟨?_, ?_, ?_, le_of_eq hsn.symm⟩,
      Or.inr (Or.inr (Or.inr ⟨hpn, ha, hb, hcc⟩))⟩ <;> rw [hsn]
    · exact le_of_lt ha
    · exact le_of_lt hb
    · exact le_of_lt hcc

/-- C4 counterexample: on top sequence AAC against bottom sequence AAT the
interior cell (2,2) has candidates NULL = 0, LEFT = -6, UP = -6, DIAG = 0:
NULL and DIAG tie for the maximum, and the stored pointer is PTRNULL, not
PTRDIAG as the claim (last-seen maximum, DIAG beats NULL on equality)
requires. -/
theorem c4_counterexample :
    Gaest.diagCand Gaest.defaultDyn
      [Gaest.Nucleotide.A, Gaest.Nucleotide.A, Gaest.Nucleotide.C]
      [Gaest.Nucleotide.A, Gaest.Nucleotide.A, Gaest.Nucleotide.T] 2 2 = 0 ∧
    Gaest.leftCand Gaest.defaultDyn
      [Gaest.Nucleotide.A, Gaest.Nucleotide.A, Gaest.Nucleotide.C]
      [Gaest.Nucleotide.A, Gaest.Nucleotide.A, Gaest.Nucleotide.T] 2 2 = -6 ∧
    Gaest.upCand Gaest.defaultDyn
      [Gaest.Nucleotide.A, Gaest.Nucleotide.A, Gaest.Nucleotide.C]
      [Gaest.Nucleotide.A, Gaest.Nucleotide.A, Gaest.Nucleotide.T] 2 2 = -6 ∧
    Gaest.ptr Gaest.defaultDyn
      [Gaest.Nucleotide.A, Gaest.Nucleotide.A, Gaest.Nucleotide.C]
      [Gaest.Nucleotide.A, Gaest.Nucleotide.A, Gaest.Nucleotide.T] 2 2 =
      Gaest.PTRNULL ∧
    Gaest.PTRNULL ≠ Gaest.PTRDIAG := by
  refine ⟨?_, ?_, ?_, ?_, by decide⟩ <;>
    norm_num [Gaest.diagCand, Gaest.leftCand, Gaest.upCand, Gaest.scr,
      Gaest.ptr, Gaest.cell, Gaest.dynMax, List.range', Gaest.compare_AA,
      Gaest.compare_AC, Gaest.compare_AT, Gaest.compare_CA, Gaest.compare_CC,
      Gaest.compare_CT, Gaest.nth, Gaest.PTRLEFT, Gaest.PTRUP, Gaest.PTRDIAG,
      Gaest.PTRNULL, Gaest.defaultDyn]

/-- C5: dynamic::significant returns true exactly when the sequences have
been aligned and the score is at least significance_ * (match_ + 0.05 *
msmatch_); with the default parameters (match 1.0, mismatch -2.0,
significance length 40) that threshold is exactly 36. -/
theorem c5_significant_iff (a : Bool) (score : ℚ) (P : Gaest.AlignParams) :
    (Gaest.significant a score P = true ↔
      (a = true ∧
        P.significance_ * (P.match_ + 1/20 * P.msmatch_) ≤ score)) ∧
    Gaest.defaultDyn.significance_ *
      (Gaest.defaultDyn.match_ + 1/20 * Gaest.defaultDyn.msmatch_) = 36 := by
  constructor
  · cases a <;> simp [Gaest.significant, not_lt]
  · norm_num [Gaest.defaultDyn]

namespace Gaest

open Nucleotide

/-- Every position of an all-base sequence reads back as a base (the
out-of-range default A is itself a base). -/
theorem isBase_nth (s : List Nucleotide) (hb : ∀ x ∈ s, IsBase x) (i : ℕ) :
    IsBase (nth s i) := by
  by_cases h : i < s.length
  · rw [nth, List.getD_eq_getElem _ _ h]
    exact hb _ (List.getElem_mem h)
  · rw [nth, List.getD_eq_default _ _ (le_of_not_lt h)]
    exact Or.inl rfl

/-- A base compared with itself scores 1. -/
theorem compare_self_base {x : Nucleotide} (hx : IsBase x) :
    compare x x = 1 := by
  rcases hx with rfl | rfl | rfl | rfl <;> rfl

/-- Two bases compare to either 0 or 1. -/
theorem compare_base_cases {x y : Nucleotide} (hx : IsBase x)
    (hy : IsBase y) : compare x y = 0 ∨ compare x y = 1 := by
  rcases hx with rfl | rfl | rfl | rfl <;>
    rcases hy with rfl | rfl | rfl | rfl <;>
    first
      | exact Or.inr (by rfl)
      | exact Or.inl (by rfl)

/-- Evaluation of a first-row cell (j = 0). -/
theorem cell_row0 (P : AlignParams) (X Y : List Nucleotide) (i : ℕ) :
    cell P X Y i 0 =
      (if compare (nth X i) (nth Y 0) ≠ 0
        then compare (nth X i) (nth Y 0) * P.match_ else 0, PTRNULL) := by
  rw [cell]

/-- Evaluation of a first-column cell (i = 0, j positive). -/
theorem cell_col0 (P : AlignParams) (X Y : List Nucleotide) (j : ℕ) :
    cell P X Y 0 (j+1) =
      (if compare (nth X 0) (nth Y (j+1)) ≠ 0
        then compare (nth X 0) (nth Y (j+1)) * P.match_ else 0, PTRNULL) := by
  rw [cell]

/-- The score of an interior cell is one of the four candidates, as singled
out by the first-maximum scan. -/
theorem scr_interior_cases (P : AlignParams) (X Y : List Nucleotide)
    (i j : ℕ) :
    scr P X Y (i+1) (j+1) = 0 ∨
    scr P X Y (i+1) (j+1) = leftCand P X Y (i+1) (j+1) ∨
    scr P X Y (i+1) (j+1) = upCand P X Y (i+1) (j+1) ∨
    scr P X Y (i+1) (j+1) = diagCand P X Y (i+1) (j+1) := by
  have hc := cell_interior P X Y i j
  have hs : scr P X Y (i+1) (j+1) =
      (allCands P X Y (i+1) (j+1)).getD
        (dynMax (allCands P X Y (i+1) (j+1))) 0 := by
    unfold scr; rw [hc]
  have hall : allCands P X Y (i+1) (j+1) =
      [0, leftCand P X Y (i+1) (j+1), upCand P X Y (i+1) (j+1),
        diagCand P X Y (i+1) (j+1)] := rfl
  rw [hall] at hs
  rcases dynMax_four 0 (leftCand P X Y (i+1) (j+1))
      (upCand P X Y (i+1) (j+1)) (diagCand P X Y (i+1) (j+1)) with
    ⟨hk, _, _, _⟩ | ⟨hk, _, _, _⟩ | ⟨hk, _, _, _⟩ | ⟨hk, _, _, _⟩ <;>
    rw [hk] at hs
  · exact Or.inl (by rw [hs]; rfl)
  · exact Or.inr (Or.inl (by rw [hs]; rfl))
  · exact Or.inr (Or.inr (Or.inl (by rw [hs]; rfl)))
  · exact Or.inr (Or.inr (Or.inr (by rw [hs]; rfl)))

/-- When the DIAG candidate strictly beats the other three, the interior
cell stores the DIAG pointer and the DIAG score. -/
theorem cell_interior_diag (P : AlignParams) (X Y : List Nucleotide)
    (i j : ℕ) (h0 : 0 < diagCand P X Y (i+1) (j+1))
    (hl : leftCand P X Y (i+1) (j+1) < diagCand P X Y (i+1) (j+1))
    (hu : upCand P X Y (i+1) (j+1) < diagCand P X Y (i+1) (j+1)) :
    ptr P X Y (i+1) (j+1) = PTRDIAG ∧
    scr P X Y (i+1) (j+1) = diagCand P X Y (i+1) (j+1) := by
  have hc := cell_interior P X Y i j
  have hs : scr P X Y (i+1) (j+1) =
      (allCands P X Y (i+1) (j+1)).getD
        (dynMax (allCands P X Y (i+1) (j+1))) 0 := by
    unfold scr; rw [hc]
  have hp : ptr P X Y (i+1) (j+1) =
      dynMax (allCands P X Y (i+1) (j+1)) := by
    unfold ptr; rw [hc]
  have hall : allCands P X Y (i+1) (j+1) =
      [0, leftCand P X Y (i+1) (j+1), upCand P X Y (i+1) (j+1),
        diagCand P X Y (i+1) (j+1)] := rfl
  rw [hall] at hs hp
  rcases dynMax_four 0 (leftCand P X Y (i+1) (j+1))
      (upCand P X Y (i+1) (j+1)) (diagCand P X Y (i+1) (j+1)) with
    ⟨hk, ha, hb, hcc⟩ | ⟨hk, ha, hb, hcc⟩ | ⟨hk, ha, hb, hcc⟩ |
    ⟨hk, ha, hb, hcc⟩
  · exact absurd h0 (not_lt.2 hcc)
  · exact absurd hl (not_lt.2 hcc)
  · exact absurd hu (not_lt.2 hcc)
  · rw [hk] at hs hp
    exact ⟨hp, by rw [hs]; rfl⟩

/-- The gap term added to a LEFT or UP candidate is at most the
gap-extension penalty -0.2 under the default parameters. -/
theorem gap_le (c : Prop) [Decidable c] :
    (if c then defaultDyn.gapxtnd_ else defaultDyn.gapopen_) ≤ -1/5 := by
  split_ifs <;> norm_num [defaultDyn]

end Gaest

namespace Gaest

open Nucleotide

/-- Unfolded form of the LEFT candidate at an interior cell. -/
theorem leftCand_succ (P : AlignParams) (X Y : List Nucleotide) (i j : ℕ) :
    leftCand P X Y (i+1) (j+1) =
      scr P X Y i (j+1) +
        (if ptr P X Y i (j+1) = PTRLEFT then P.gapxtnd_ else P.gapopen_) := by
  simp [leftCand]

/-- Unfolded form of the UP candidate at an interior cell. -/
theorem upCand_succ (P : AlignParams) (X Y : List Nucleotide) (i j : ℕ) :
    upCand P X Y (i+1) (j+1) =
      scr P X Y (i+1) j +
        (if ptr P X Y (i+1) j = PTRUP then P.gapxtnd_ else P.gapopen_) := by
  simp [upCand]

/-- Unfolded form of the DIAG candidate at an interior cell. -/
theorem diagCand_succ (P : AlignParams) (X Y : List Nucleotide) (i j : ℕ) :
    diagCand P X Y (i+1) (j+1) =
      scr P X Y i j +
        (if compare (nth X (i+1)) (nth Y (j+1)) ≠ 0
          then compare (nth X (i+1)) (nth Y (j+1)) * P.match_
          else P.msmatch_) := by
  simp [diagCand]

/-- First-row score evaluation. -/
theorem scr_row0 (P : AlignParams) (X Y : List Nucleotide) (i : ℕ) :
    scr P X Y i 0 =
      (if compare (nth X i) (nth Y 0) ≠ 0
        then compare (nth X i) (nth Y 0) * P.match_ else 0) := by
  unfold scr; rw [cell_row0]

/-- First-row pointers are NULL. -/
theorem ptr_row0 (P : AlignParams) (X Y : List Nucleotide) (i : ℕ) :
    ptr P X Y i 0 = PTRNULL := by
  unfold ptr; rw [cell_row0]

/-- First-column score evaluation. -/
theorem scr_col0 (P : AlignParams) (X Y : List Nucleotide) (j : ℕ) :
    scr P X Y 0 (j+1) =
      (if compare (nth X 0) (nth Y (j+1)) ≠ 0
        then compare (nth X 0) (nth Y (j+1)) * P.match_ else 0) := by
  unfold scr; rw [cell_col0]

/-- First-column pointers are NULL. -/
theorem ptr_col0 (P : AlignParams) (X Y : List Nucleotide) (j : ℕ) :
    ptr P X Y 0 (j+1) = PTRNULL := by
  unfold ptr; rw [cell_col0]

/-- Over all-base sequences, under the default parameters, every matrix
entry is bounded by min(i, j) + 1: each diagonal step gains at most the
match reward 1 and every gap step loses at least 0.2. -/
theorem scr_le_min (X Y : List Nucleotide)
    (hX : ∀ i, IsBase (nth X i)) (hY : ∀ j, IsBase (nth Y j)) :
    ∀ i j, scr defaultDyn X Y i j ≤ ((min i j : ℕ) : ℚ) + 1 := by
  have base : ∀ x y, IsBase x → IsBase y →
      (if compare x y ≠ 0 then compare x y * defaultDyn.match_ else 0) ≤ 1 := by
    intro x y hx hy
    rcases compare_base_cases hx hy with h | h <;> simp [h, defaultDyn]
  have hrow : ∀ i, scr defaultDyn X Y i 0 ≤ ((min i 0 : ℕ) : ℚ) + 1 := by
    intro i
    rw [scr_row0]
    have h1 := base _ _ (hX i) (hY 0)
    have h0 : (0:ℚ) ≤ ((min i 0 : ℕ) : ℚ) := by positivity
    linarith
  have hcol : ∀ j, scr defaultDyn X Y 0 (j+1) ≤
      ((min 0 (j+1) : ℕ) : ℚ) + 1 := by
    intro j
    rw [scr_col0]
    have h1 := base _ _ (hX 0) (hY (j+1))
    have h0 : (0:ℚ) ≤ ((min 0 (j+1) : ℕ) : ℚ) := by positivity
    linarith
  have key : ∀ n i j, i + j ≤ n →
      scr defaultDyn X Y i j ≤ ((min i j : ℕ) : ℚ) + 1 := by
    intro n
    induction n with
    | zero =>
      intro i j hij
      obtain ⟨rfl, rfl⟩ : i = 0 ∧ j = 0 := by omega
      exact hrow 0
    | succ n ih =>
      intro i j hij
      rcases j with _ | j
      · exact hrow i
      rcases i with _ | i
      · exact hcol j
      have hl : leftCand defaultDyn X Y (i+1) (j+1) ≤
          ((min (i+1) (j+1) : ℕ) : ℚ) + 1 := by
        rw [leftCand_succ]
        have h1 := ih i (j+1) (by omega)
        have h2 := gap_le (ptr defaultDyn X Y i (j+1) = PTRLEFT)
        have h3 : ((min i (j+1) : ℕ) : ℚ) ≤ ((min (i+1) (j+1) : ℕ) : ℚ) :=
          Nat.cast_le.2 (min_le_min (Nat.le_succ i) le_rfl)
        linarith
      have hu : upCand defaultDyn X Y (i+1) (j+1) ≤
          ((min (i+1) (j+1) : ℕ) : ℚ) + 1 := by
        rw [upCand_succ]
        have h1 := ih (i+1) j (by omega)
        have h2 := gap_le (ptr defaultDyn X Y (i+1) j = PTRUP)
        have h3 : ((min (i+1) j : ℕ) : ℚ) ≤ ((min (i+1) (j+1) : ℕ) : ℚ) :=
          Nat.cast_le.2 (min_le_min le_rfl (Nat.le_succ j))
        linarith
      have hd : diagCand defaultDyn X Y (i+1) (j+1) ≤
          ((min (i+1) (j+1) : ℕ) : ℚ) + 1 := by
        rw [diagCand_succ]
        have h1 := ih i j (by omega)
        have h2 : (if compare (nth X (i+1)) (nth Y (j+1)) ≠ 0
            then compare (nth X (i+1)) (nth Y (j+1)) * defaultDyn.match_
            else defaultDyn.msmatch_) ≤ 1 := by
          rcases compare_base_cases (hX (i+1)) (hY (j+1)) with h | h <;>
            norm_num [h, defaultDyn]
        have h3 : ((min (i+1) (j+1) : ℕ) : ℚ) = ((min i j : ℕ) : ℚ) + 1 := by
          rw [Nat.succ_min_succ]; push_cast; ring
        linarith
      have h0 : (0:ℚ) ≤ ((min (i+1) (j+1) : ℕ) : ℚ) + 1 := by positivity
      rcases scr_interior_cases defaultDyn X Y i j with h | h | h | h <;>
        rw [h]
      · exact h0
      · exact hl
      · exact hu
      · exact hd
  intro i j
  exact key (i + j) i j le_rfl

/-- Aligning an all-base sequence against itself: the main diagonal scores
i + 1. -/
theorem scr_diag (s : List Nucleotide) (hb : ∀ i, IsBase (nth s i)) :
    ∀ i, scr defaultDyn s s i i = (i : ℚ) + 1 := by
  intro i
  induction i with
  | zero =>
    rw [scr_row0]
    simp [compare_self_base (hb 0), defaultDyn]
  | succ i ih =>
    have hres : compare (nth s (i+1)) (nth s (i+1)) = 1 :=
      compare_self_base (hb (i+1))
    have hd : diagCand defaultDyn s s (i+1) (i+1) = (i:ℚ) + 2 := by
      rw [diagCand_succ, ih, hres]
      norm_num [defaultDyn]
      ring
    have hl : leftCand defaultDyn s s (i+1) (i+1) < (i:ℚ) + 2 := by
      rw [leftCand_succ]
      have h1 := scr_le_min s s hb hb i (i+1)
      have h2 := gap_le (ptr defaultDyn s s i (i+1) = PTRLEFT)
      have h3 : min i (i+1) = i := min_eq_left (Nat.le_succ i)
      rw [h3] at h1
      linarith
    have hu : upCand defaultDyn s s (i+1) (i+1) < (i:ℚ) + 2 := by
      rw [upCand_succ]
      have h1 := scr_le_min s s hb hb (i+1) i
      have h2 := gap_le (ptr defaultDyn s s (i+1) i = PTRUP)
      have h3 : min (i+1) i = i := min_eq_right (Nat.le_succ i)
      rw [h3] at h1
      linarith
    have h0 : (0:ℚ) < diagCand defaultDyn s s (i+1) (i+1) := by
      rw [hd]; positivity
    obtain ⟨_, hs⟩ := cell_interior_diag defaultDyn s s i i h0
      (by rw [hd]; exact hl) (by rw [hd]; exact hu)
    rw [hs, hd]
    push_cast
    ring

/-- Aligning an all-base sequence against itself: every interior diagonal
pointer is DIAG. -/
theorem ptr_diag (s : List Nucleotide) (hb : ∀ i, IsBase (nth s i)) (i : ℕ) :
    ptr defaultDyn s s (i+1) (i+1) = PTRDIAG := by
  have hres : compare (nth s (i+1)) (nth s (i+1)) = 1 :=
    compare_self_base (hb (i+1))
  have hd : diagCand defaultDyn s s (i+1) (i+1) = (i:ℚ) + 2 := by
    rw [diagCand_succ, scr_diag s hb i, hres]
    norm_num [defaultDyn]
    ring
  have hl : leftCand defaultDyn s s (i+1) (i+1) < (i:ℚ) + 2 := by
    rw [leftCand_succ]
    have h1 := scr_le_min s s hb hb i (i+1)
    have h2 := gap_le (ptr defaultDyn s s i (i+1) = PTRLEFT)
    have h3 : min i (i+1) = i := min_eq_left (Nat.le_succ i)
    rw [h3] at h1
    linarith
  have hu : upCand defaultDyn s s (i+1) (i+1) < (i:ℚ) + 2 := by
    rw [upCand_succ]
    have h1 := scr_le_min s s hb hb (i+1) i
    have h2 := gap_le (ptr defaultDyn s s (i+1) i = PTRUP)
    have h3 : min (i+1) i = i := min_eq_right (Nat.le_succ i)
    rw [h3] at h1
    linarith
  have h0 : (0:ℚ) < diagCand defaultDyn s s (i+1) (i+1) := by
    rw [hd]; positivity
  exact (cell_interior_diag defaultDyn s s i i h0
    (by rw [hd]; exact hl) (by rw [hd]; exact hu)).1

end Gaest

namespace Gaest

open Nucleotide

/-- With the aligned flag false on entry, dynamic::significant is false
regardless of the score, so the probe test can never fire. -/
theorem significant_not_aligned (score : ℚ) (P : AlignParams) :
    significant false score P = false := rfl

/-- In non-probe mode the fill never exits early: it performs the plain
best-tracking fold over all interior cells. -/
theorem fillLoop_s_false (P : AlignParams) (X Y : List Nucleotide)
    (a0 : Bool) :
    ∀ (l : List (ℕ × ℕ)) (b : BestSt),
      fillLoop P X Y false a0 l b = (bestFold P X Y l b, false) := by
  intro l
  induction l with
  | nil => intro b; rfl
  | cons c rest ih =>
    intro b
    by_cases h : scr P X Y c.1 c.2 > b.score <;>
      simp only [fillLoop, h, if_pos, if_neg, Bool.false_and, if_false,
        Bool.false_eq_true, ite_false, ite_true] <;>
      simp only [bestFold, List.foldl_cons] at ih ⊢
    · rw [ih ⟨scr P X Y c.1 c.2, c.1, c.2⟩]
      simp [h]
    · rw [ih b]
      simp [h]

/-- In probe mode with the aligned flag false on entry (the value the
default constructor gives it; the aligning constructor leaves it
uninitialized), the probe test is always false, so the fill behaves exactly
as in non-probe mode. -/
theorem fillLoop_probe_aligned_false (P : AlignParams)
    (X Y : List Nucleotide) :
    ∀ (l : List (ℕ × ℕ)) (b : BestSt),
      fillLoop P X Y true false l b = fillLoop P X Y false false l b := by
  intro l
  induction l with
  | nil => intro b; rfl
  | cons c rest ih =>
    intro b
    by_cases h : scr P X Y c.1 c.2 > b.score <;>
      simp only [fillLoop, h, significant_not_aligned, Bool.and_false,
        Bool.false_and, Bool.false_eq_true, ite_false, ite_true] <;>
      rw [ih]

/-- The best-tracking fold keeps its score below M while every cell scores
below M. -/
theorem bestFold_score_lt (P : AlignParams) (X Y : List Nucleotide)
    (M : ℚ) :
    ∀ (l : List (ℕ × ℕ)) (b : BestSt),
      (∀ c ∈ l, scr P X Y c.1 c.2 < M) → b.score < M →
      (bestFold P X Y l b).score < M := by
  intro l
  induction l with
  | nil => intro b _ hb; exact hb
  | cons c rest ih =>
    intro b hall hb
    simp only [bestFold, List.foldl_cons] at ih ⊢
    by_cases h : scr P X Y c.1 c.2 > b.score <;> simp only [h, ite_true,
        ite_false, if_pos, if_neg]
    · exact ih _ (fun d hd => hall d (List.mem_cons_of_mem c hd))
        (hall c (List.mem_cons_self c rest))
    · exact ih b (fun d hd => hall d (List.mem_cons_of_mem c hd)) hb

/-- When the last cell of the scan strictly beats every earlier cell and
the initial best, the fold ends exactly on that cell. -/
theorem bestFold_last (P : AlignParams) (X Y : List Nucleotide) (M : ℚ)
    (l : List (ℕ × ℕ)) (cstar : ℕ × ℕ) (b : BestSt)
    (hall : ∀ c ∈ l, scr P X Y c.1 c.2 < M) (hb : b.score < M)
    (hstar : scr P X Y cstar.1 cstar.2 = M) :
    bestFold P X Y (l ++ [cstar]) b = ⟨M, cstar.1, cstar.2⟩ := by
  have hlt := bestFold_score_lt P X Y M l b hall hb
  unfold bestFold
  rw [List.foldl_append]
  simp only [List.foldl_cons, List.foldl_nil]
  have hgt : scr P X Y cstar.1 cstar.2 > (bestFold P X Y l b).score := by
    rw [hstar]; exact hlt
  simp only [bestFold] at hgt
  rw [if_pos hgt, hstar]

/-- Walking a pointer field that is DIAG on the positive diagonal and NULL
at the origin: the first traceback pass from (k, k) counts k steps and
lands on (0, 0). -/
theorem tracePass1_diag (pt : ℕ → ℕ → ℕ)
    (hdiag : ∀ m, pt (m+1) (m+1) = PTRDIAG) (h0 : pt 0 0 = PTRNULL) :
    ∀ k fuel, k < fuel → tracePass1 pt fuel k k = some (k, 0, 0) := by
  intro k
  induction k with
  | zero =>
    intro fuel hf
    rcases fuel with _ | f
    · omega
    · simp [tracePass1, h0]
  | succ k ih =>
    intro fuel hf
    rcases fuel with _ | f
    · omega
    · have hne : pt (k+1) (k+1) ≠ PTRNULL := by
        rw [hdiag k]; decide
      simp only [tracePass1, hne, hdiag k, ite_false, ite_true, if_neg,
        if_pos, Nat.add_sub_cancel]
      rw [if_neg (by decide : ¬ (PTRDIAG = PTRNULL)), ih f (by omega)]
      rfl

/-- Second traceback pass along the same diagonal pointer field, with match
strength 1 at every diagonal cell: the align string is all bars. -/
theorem tracePass2_diag (pt : ℕ → ℕ → ℕ) (cmp : ℕ → ℕ → ℚ)
    (l1 l2 : ℕ → Char) (hdiag : ∀ m, pt (m+1) (m+1) = PTRDIAG)
    (hcmp : ∀ m, cmp m m = 1) :
    ∀ t k, t ≤ k →
      (tracePass2 pt cmp l1 l2 t k k).2.2 = List.replicate t '|' := by
  intro t
  induction t with
  | zero => intro k _; rfl
  | succ t ih =>
    intro k hk
    rcases k with _ | k
    · omega
    have hbar : matchChar (cmp (k+1) (k+1)) = '|' := by
      rw [hcmp (k+1)]; rfl
    simp only [tracePass2, hdiag k, Nat.add_sub_cancel]
    rw [if_pos trivial]
    simp only [hbar]
    rw [ih k (by omega)]
    exact (List.replicate_succ' t '|').symm

end Gaest

namespace Gaest

open Nucleotide

/-- Full outcome of aligning an all-base 60-mer against itself with the
default parameters, in non-probe mode: score 60 at end cell (59, 59), the
aligned flag set, and a traceback of 59 steps (the NULL start cell (0, 0)
is not counted by the first pass of dynamic::tracepath) reaching begin
coordinates (0, 0) with an align string of 59 bars. -/
theorem align_identical60 (s : List Nucleotide) (hlen : s.length = 60)
    (hb : ∀ x ∈ s, IsBase x) :
    align defaultDyn s s false false = ⟨60, 59, 59, true⟩ ∧
    ∃ tr, tracepath defaultDyn s s 59 59 = some tr ∧
      tr.pathlength = 59 ∧ tr.xbegin = 0 ∧ tr.ybegin = 0 ∧
      tr.align_ = List.replicate 59 '|' := by
  have hb' : ∀ i, IsBase (nth s i) := isBase_nth s hb
  have hbound := scr_le_min s s hb' hb'
  have hstar : scr defaultDyn s s 59 59 = 60 := by
    rw [scr_diag s hb' 59]; norm_num
  have hpre : ∀ c ∈ (((List.range' 1 58).flatMap
        fun j => (List.range' 1 59).map fun i => (i, j)) ++
        ((List.range' 1 58).map fun i => (i, 59))),
      scr defaultDyn s s c.1 c.2 < 60 := by
    intro c hc
    rcases List.mem_append.1 hc with hc | hc
    · obtain ⟨j, hj, hcj⟩ := List.mem_flatMap.1 hc
      obtain ⟨i, _, rfl⟩ := List.mem_map.1 hcj
      obtain ⟨hj1, hj2⟩ := List.mem_range'_1.1 hj
      have h1 := hbound i j
      have h2 : (min i j : ℕ) ≤ 58 := le_trans (min_le_right i j) (by omega)
      have h3 : ((min i j : ℕ) : ℚ) ≤ 58 := by exact_mod_cast h2
      show scr defaultDyn s s i j < 60
      linarith
    · obtain ⟨i, hi, rfl⟩ := List.mem_map.1 hc
      obtain ⟨hi1, hi2⟩ := List.mem_range'_1.1 hi
      have h1 := hbound i 59
      have h2 : (min i 59 : ℕ) ≤ 58 := le_trans (min_le_left i 59) (by omega)
      have h3 : ((min i 59 : ℕ) : ℚ) ≤ 58 := by exact_mod_cast h2
      show scr defaultDyn s s i 59 < 60
      linarith
  have hc59 : List.range' 1 59 = List.range' 1 58 ++ [59] := by
    have h : List.range' 1 (58+1) = List.range' 1 58 ++ [1 + 58] :=
      List.range'_concat 1 58
    norm_num at h
    exact h
  have hcells : interiorCells s.length s.length =
      (((List.range' 1 58).flatMap
          fun j => (List.range' 1 59).map fun i => (i, j)) ++
        ((List.range' 1 58).map fun i => (i, 59))) ++ [(59, 59)] := by
    rw [hlen]
    show ((List.range' 1 (60-1)).flatMap
        fun j => (List.range' 1 (60-1)).map fun i => (i, j)) = _
    norm_num
    nth_rewrite 1 [hc59]
    rw [List.flatMap_append]
    simp only [List.flatMap_cons, List.flatMap_nil, List.append_nil]
    nth_rewrite 2 [hc59]
    rw [List.map_append]
    simp [List.append_assoc]
  have hfold := bestFold_last defaultDyn s s 60
    (((List.range' 1 58).flatMap
        fun j => (List.range' 1 59).map fun i => (i, j)) ++
      ((List.range' 1 58).map fun i => (i, 59)))
    (59, 59) ⟨0, 0, 0⟩ hpre (by norm_num) hstar
  have e1 : fillLoop defaultDyn s s false false
      (interiorCells s.length s.length) ⟨0, 0, 0⟩ =
      (⟨60, 59, 59⟩, false) := by
    rw [fillLoop_s_false, hcells, hfold]
  have halign : align defaultDyn s s false false = ⟨60, 59, 59, true⟩ := by
    simp only [align, e1]
    rfl
  refine ⟨halign, ?_⟩
  have hptr : ∀ m, ptr defaultDyn s s (m+1) (m+1) = PTRDIAG := ptr_diag s hb'
  have h00 : ptr defaultDyn s s 0 0 = PTRNULL := ptr_row0 defaultDyn s s 0
  have h1 := tracePass1_diag (ptr defaultDyn s s) hptr h00 59 (59 + 59 + 1)
    (by omega)
  have h2 := tracePass2_diag (ptr defaultDyn s s)
    (fun i j => compare (nth s i) (nth s j)) (letter s) (letter s) hptr
    (fun m => compare_self_base (hb' m)) 59 59 le_rfl
  unfold tracepath
  rw [h1]
  exact ⟨_, rfl, rfl, rfl, rfl, h2⟩

end Gaest

/-- C2 (amended): for two identical 60-base sequences over {A, C, G, T},
align in non-probe mode yields score 60.0, x_end = y_end = 59, the aligned
flag set and a significant alignment, and tracepath yields
x_begin = y_begin = 0 with path_length 59 and an align string of 59 bars:
the first traceback pass counts only the steps out of cells with a
non-NULL pointer, so the NULL start cell (0,0) is not counted and the
claimed path_length 60 (with 60 bars) is off by one. -/
theorem c2_identical_sixty (s : List Gaest.Nucleotide)
    (hlen : s.length = 60) (hb : ∀ x ∈ s, Gaest.IsBase x) :
    (Gaest.align Gaest.defaultDyn s s false false).score = 60 ∧
    (Gaest.align Gaest.defaultDyn s s false false).xend = 59 ∧
    (Gaest.align Gaest.defaultDyn s s false false).yend = 59 ∧
    (Gaest.align Gaest.defaultDyn s s false false).aligned = true ∧
    Gaest.significant (Gaest.align Gaest.defaultDyn s s false false).aligned
      (Gaest.align Gaest.defaultDyn s s false false).score Gaest.defaultDyn =
      true ∧
    ∃ tr, Gaest.tracepath Gaest.defaultDyn s s 59 59 = some tr ∧
      tr.pathlength = 59 ∧ tr.xbegin = 0 ∧ tr.ybegin = 0 ∧
      tr.align_ = List.replicate 59 '|' := by
  obtain ⟨h1, h2⟩ := Gaest.align_identical60 s hlen hb
  rw [h1]
  refine ⟨rfl, rfl, rfl, rfl, ?_, h2⟩
  norm_num [Gaest.significant, Gaest.defaultDyn]

/-- C2 witness: the hypotheses and conclusion of the amended claim hold at
the concrete sequence of sixty adenines. -/
theorem c2_identical_sixty_witness :
    (List.replicate 60 Gaest.Nucleotide.A).length = 60 ∧
    (∀ x ∈ List.replicate 60 Gaest.Nucleotide.A, Gaest.IsBase x) ∧
    ((Gaest.align Gaest.defaultDyn (List.replicate 60 Gaest.Nucleotide.A)
        (List.replicate 60 Gaest.Nucleotide.A) false false).score = 60 ∧
      (Gaest.align Gaest.defaultDyn (List.replicate 60 Gaest.Nucleotide.A)
        (List.replicate 60 Gaest.Nucleotide.A) false false).xend = 59 ∧
      (Gaest.align Gaest.defaultDyn (List.replicate 60 Gaest.Nucleotide.A)
        (List.replicate 60 Gaest.Nucleotide.A) false false).yend = 59 ∧
      (Gaest.align Gaest.defaultDyn (List.replicate 60 Gaest.Nucleotide.A)
        (List.replicate 60 Gaest.Nucleotide.A) false false).aligned = true ∧
      Gaest.significant
        (Gaest.align Gaest.defaultDyn (List.replicate 60 Gaest.Nucleotide.A)
          (List.replicate 60 Gaest.Nucleotide.A) false false).aligned
        (Gaest.align Gaest.defaultDyn (List.replicate 60 Gaest.Nucleotide.A)
          (List.replicate 60 Gaest.Nucleotide.A) false false).score
        Gaest.defaultDyn = true ∧
      ∃ tr, Gaest.tracepath Gaest.defaultDyn
          (List.replicate 60 Gaest.Nucleotide.A)
          (List.replicate 60 Gaest.Nucleotide.A) 59 59 = some tr ∧
        tr.pathlength = 59 ∧ tr.xbegin = 0 ∧ tr.ybegin = 0 ∧
        tr.align_ = List.replicate 59 '|') :=
  ⟨by decide, by decide,
    c2_identical_sixty (List.replicate 60 Gaest.Nucleotide.A)
      (by decide) (by decide)⟩

/-- C2 counterexample: at two identical sequences of sixty adenines the
traceback produces path_length 59, not 60, and its align string is not the
claimed 60 bars. -/
theorem c2_counterexample :
    ∃ tr, Gaest.tracepath Gaest.defaultDyn
        (List.replicate 60 Gaest.Nucleotide.A)
        (List.replicate 60 Gaest.Nucleotide.A) 59 59 = some tr ∧
      tr.pathlength = 59 ∧ tr.pathlength ≠ 60 ∧
      tr.align_ ≠ List.replicate 60 '|' := by
  obtain ⟨-, tr, htr, hp, -, -, ha⟩ :=
    Gaest.align_identical60 (List.replicate 60 Gaest.Nucleotide.A)
      (by decide) (by decide)
  refine ⟨tr, htr, hp, by rw [hp]; decide, ?_⟩
  rw [ha]
  decide

/-- C3: the claim states that in significance-probe mode the fill stops at
the first cell whose running best satisfies the significance predicate,
leaving the aligned flag unset. In the code the probe test is
significant(), which returns false whenever the aligned_ flag is false,
and aligned_ is only assigned (to true) after the full fill; with the flag
false on entry (the default constructor sets it false; the aligning
constructor leaves it uninitialized) the early exit can never fire: probe
mode behaves exactly like non-probe mode and DOES set the aligned flag. In
particular, on two identical 60-mers of adenine the probe-mode fill runs
to completion with score 60 (well past the threshold 36 it should have
stopped at) and aligned = true. -/
theorem c3_probe_never_exits (P : Gaest.AlignParams)
    (X Y : List Gaest.Nucleotide) :
    Gaest.align P X Y true false = Gaest.align P X Y false false ∧
    (Gaest.align P X Y true false).aligned = true ∧
    Gaest.align Gaest.defaultDyn (List.replicate 60 Gaest.Nucleotide.A)
      (List.replicate 60 Gaest.Nucleotide.A) true false =
      ⟨60, 59, 59, true⟩ := by
  have key : ∀ (Q : Gaest.AlignParams) (U V : List Gaest.Nucleotide),
      Gaest.align Q U V true false = Gaest.align Q U V false false := by
    intro Q U V
    simp only [Gaest.align, Gaest.fillLoop_probe_aligned_false]
  refine ⟨key P X Y, ?_, ?_⟩
  · rw [key P X Y]
    simp only [Gaest.align, Gaest.fillLoop_s_false]
    rfl
  · rw [key Gaest.defaultDyn]
    exact (Gaest.align_identical60 (List.replicate 60 Gaest.Nucleotide.A)
      (by decide) (by decide)).1

namespace Gaest

/-- Lookup after an assignment: the new key reads the new value, every
other key is unchanged. -/
theorem lookupC_setC (c : Cache) (a b x y : ℕ) (v : Bool) :
    lookupC (setC c a b v) x y =
      if (x, y) = (a, b) then some v else lookupC c x y := by
  unfold lookupC setC
  by_cases h : (x, y) = (a, b)
  · rw [List.find?_cons_of_pos _
      (by simp only [decide_eq_true_eq]; exact h.symm), if_pos h]
    rfl
  · rw [List.find?_cons_of_neg _
      (by simp only [decide_eq_true_eq]; exact fun hh => h hh.symm),
      if_neg h]

/-- Assignments never remove a key. -/
theorem lookupC_isSome_setC (c : Cache) (a b x y : ℕ) (v : Bool)
    (h : (lookupC c x y).isSome) :
    (lookupC (setC c a b v) x y).isSome := by
  rw [lookupC_setC]
  split_ifs <;> simp [h]

/-- A check call never removes a key. -/
theorem lookupC_isSome_check (verdict : ℕ → ℕ → Bool) (c : Cache)
    (i j x y : ℕ) (h : (lookupC c x y).isSome) :
    (lookupC (check verdict c i j).1 x y).isSome := by
  unfold check
  split_ifs
  · exact h
  · exact lookupC_isSome_setC _ _ _ _ _ _ (lookupC_isSome_setC _ _ _ _ _ _ h)

/-- An operator[] read never removes a key. -/
theorem lookupC_isSome_readIns (c : Cache) (i j x y : ℕ)
    (h : (lookupC c x y).isSome) :
    (lookupC (readIns c i j).1 x y).isSome := by
  unfold readIns
  rcases he : lookupC c i j with - | v
  · exact lookupC_isSome_setC _ _ _ _ _ _ h
  · exact h

/-- The edge-building loop never removes a key. -/
theorem lookupC_isSome_buildEdges (c : Cache) (g : List ℕ) (x y : ℕ)
    (h : (lookupC c x y).isSome) :
    (lookupC (buildEdges c g).1 x y).isSome := by
  have key : ∀ (l : List ℕ) (c0 : Cache) (e0 : List (List ℕ)),
      (lookupC c0 x y).isSome →
      (lookupC (l.foldl (fun st i =>
          if (readIns st.1 i (g.getD i 0)).2 then
            ((readIns st.1 i (g.getD i 0)).1,
              pushEdge (pushEdge st.2 i (g.getD i 0)) (g.getD i 0) i)
          else ((readIns st.1 i (g.getD i 0)).1, st.2)) (c0, e0)).1
        x y).isSome := by
    intro l
    induction l with
    | nil => intro c0 e0 hh; exact hh
    | cons i rest ih =>
      intro c0 e0 hh
      simp only [List.foldl_cons]
      by_cases hv : (readIns c0 i (g.getD i 0)).2 = true
      · rw [if_pos hv]
        exact ih _ _ (lookupC_isSome_readIns _ _ _ _ _ hh)
      · rw [if_neg hv]
        exact ih _ _ (lookupC_isSome_readIns _ _ _ _ _ hh)
  exact key (List.range g.length) c (List.replicate g.length []) h

/-- No operation of a run ever removes a key. -/
theorem lookupC_isSome_runTrace (verdict : ℕ → ℕ → Bool)
    (tr : List CacheOp) :
    ∀ (st : Cache × List (ℕ × ℕ)) (x y : ℕ),
      (lookupC st.1 x y).isSome →
      (lookupC (runTrace verdict st tr).1 x y).isSome := by
  induction tr with
  | nil => intro st x y h; exact h
  | cons op rest ih =>
    intro st x y h
    rcases op with ⟨i, j⟩ | g
    · exact ih _ _ _ (lookupC_isSome_check verdict st.1 i j x y h)
    · exact ih _ _ _ (lookupC_isSome_buildEdges st.1 g x y h)

/-- A check on a present key performs no alignment and leaves the cache
unchanged. -/
theorem check_hit (verdict : ℕ → ℕ → Bool) (c : Cache) (i j : ℕ)
    (h : (lookupC c i j).isSome) :
    check verdict c i j = (c, false) := by
  unfold check
  rw [if_pos h]

end Gaest

/-- C10: when objective() or the final cluster-graph construction reads a
pair (i, j) never passed to check (both are built on the operator[] read
readIns, see buildEdges), the read returns false (the pair is treated as
non-significant), a default false entry is inserted under (i, j) only, the
reverse key (j, i) is left exactly as it was, and any later check(i, j),
even after an arbitrary sequence of further operations, finds the key
present and performs no alignment for the pair. -/
theorem c10_uncached_read (verdict : ℕ → ℕ → Bool) (c : Gaest.Cache)
    (i j : ℕ) (hne : i ≠ j) (h : Gaest.lookupC c i j = none) :
    (Gaest.readIns c i j).2 = false ∧
    Gaest.lookupC (Gaest.readIns c i j).1 i j = some false ∧
    Gaest.lookupC (Gaest.readIns c i j).1 j i = Gaest.lookupC c j i ∧
    (∀ (tr : List Gaest.CacheOp) (log : List (ℕ × ℕ)),
      (Gaest.check verdict
        (Gaest.runTrace verdict ((Gaest.readIns c i j).1, log) tr).1
        i j).2 = false) := by
  have hr : Gaest.readIns c i j = (Gaest.setC c i j false, false) := by
    unfold Gaest.readIns
    rw [h]
  refine ⟨by rw [hr], ?_, ?_, ?_⟩
  · rw [hr, Gaest.lookupC_setC, if_pos rfl]
  · rw [hr, Gaest.lookupC_setC, if_neg (by simp [Ne.symm hne])]
  · intro tr log
    have h1 : (Gaest.lookupC (Gaest.readIns c i j).1 i j).isSome := by
      rw [hr, Gaest.lookupC_setC, if_pos rfl]
      rfl
    have h2 := Gaest.lookupC_isSome_runTrace verdict tr
      ((Gaest.readIns c i j).1, log) i j h1
    rw [Gaest.check_hit verdict _ i j h2]

/-- C10 witness: the empty cache and the pair (0, 1), with the later check
taken after the trace that evaluates objective on the genome [1, 0, 0]. -/
theorem c10_uncached_read_witness :
    (0 : ℕ) ≠ 1 ∧
    Gaest.lookupC [] 0 1 = none ∧
    ((Gaest.readIns [] 0 1).2 = false ∧
      Gaest.lookupC (Gaest.readIns [] 0 1).1 0 1 = some false ∧
      Gaest.lookupC (Gaest.readIns [] 0 1).1 1 0 = Gaest.lookupC [] 1 0 ∧
      (Gaest.check (fun _ _ => true)
        (Gaest.runTrace (fun _ _ => true)
          ((Gaest.readIns [] 0 1).1, []) [Gaest.CacheOp.obj [1, 0, 0]]).1
        0 1).2 = false) := by
  have hmain := c10_uncached_read (fun _ _ => true) [] 0 1
    (by decide) (by decide)
  exact ⟨by decide, by decide, hmain.1, hmain.2.1, hmain.2.2.1,
    hmain.2.2.2 [Gaest.CacheOp.obj [1, 0, 0]] []⟩

namespace Gaest

/-- A check on an absent key aligns and stores the verdict under both
orientations. -/
theorem check_miss (verdict : ℕ → ℕ → Bool) (c : Cache) (i j : ℕ)
    (h : ¬ (lookupC c i j).isSome) :
    check verdict c i j =
      (setC (setC c j i (verdict i j)) i j (verdict i j), true) := by
  unfold check
  rw [if_neg h]

/-- Invariant preservation over a trace: every logged pair stays cached in
both orientations, and no unordered pair is ever logged (aligned) twice. -/
theorem runTrace_aligned_once (verdict : ℕ → ℕ → Bool) (tr : List CacheOp) :
    ∀ st : Cache × List (ℕ × ℕ),
      (∀ p ∈ st.2, (lookupC st.1 p.1 p.2).isSome ∧
        (lookupC st.1 p.2 p.1).isSome) →
      (∀ a b : ℕ, (st.2.countP
        fun p => decide (p = (a, b) ∨ p = (b, a))) ≤ 1) →
      (∀ p ∈ (runTrace verdict st tr).2,
        (lookupC (runTrace verdict st tr).1 p.1 p.2).isSome ∧
        (lookupC (runTrace verdict st tr).1 p.2 p.1).isSome) ∧
      (∀ a b : ℕ, ((runTrace verdict st tr).2.countP
        fun p => decide (p = (a, b) ∨ p = (b, a))) ≤ 1) := by
  induction tr with
  | nil => intro st h1 h2; exact ⟨h1, h2⟩
  | cons op rest ih =>
    intro st h1 h2
    rcases op with ⟨i, j⟩ | g
    · by_cases hhit : (lookupC st.1 i j).isSome
      · have he : runOp verdict st (CacheOp.chk i j) = st := by
          simp [runOp, check_hit verdict st.1 i j hhit]
        rw [runTrace, he]
        exact ih st h1 h2
      · have hstep : runOp verdict st (CacheOp.chk i j) =
            (setC (setC st.1 j i (verdict i j)) i j (verdict i j),
              st.2 ++ [(i, j)]) := by
          simp [runOp, check_miss verdict st.1 i j hhit]
        rw [runTrace, hstep]
        apply ih
        · intro p hp
          rcases List.mem_append.1 hp with hp | hp
          · obtain ⟨ha, hb⟩ := h1 p hp
            exact ⟨lookupC_isSome_setC _ _ _ _ _ _
                (lookupC_isSome_setC _ _ _ _ _ _ ha),
              lookupC_isSome_setC _ _ _ _ _ _
                (lookupC_isSome_setC _ _ _ _ _ _ hb)⟩
          · rcases List.mem_singleton.1 hp with rfl
            constructor
            · rw [lookupC_setC, if_pos rfl]
              rfl
            · show (lookupC _ j i).isSome
              rw [lookupC_setC]
              by_cases hd : ((j : ℕ), i) = (i, j)
              · rw [if_pos hd]; rfl
              · rw [if_neg hd, lookupC_setC, if_pos rfl]; rfl
        · intro a b
          rw [List.countP_append]
          have hsing : ([((i : ℕ), j)].countP
              fun p => decide (p = (a, b) ∨ p = (b, a))) ≤ 1 := by
            simp only [List.countP_cons, List.countP_nil]
            split_ifs <;> omega
          by_cases hm : (((i : ℕ), j) = (a, b) ∨ ((i : ℕ), j) = (b, a))
          · have hz : (st.2.countP
                fun p => decide (p = (a, b) ∨ p = (b, a))) = 0 := by
              by_contra hnz
              obtain ⟨p, hp, hpp⟩ :=
                List.countP_pos_iff.mp (Nat.pos_of_ne_zero hnz)
              have hpd : p = ((a : ℕ), b) ∨ p = ((b : ℕ), a) :=
                of_decide_eq_true hpp
              obtain ⟨ha1, ha2⟩ := h1 p hp
              apply hhit
              rcases hpd with rfl | rfl <;> rcases hm with he | he <;>
                cases he
              · exact ha1
              · exact ha2
              · exact ha2
              · exact ha1
            omega
          · have h0 : ([((i : ℕ), j)].countP
                fun p => decide (p = (a, b) ∨ p = (b, a))) = 0 := by
              simp only [List.countP_cons, List.countP_nil]
              rw [if_neg (by simpa using hm)]
            have := h2 a b
            omega
    · have hstep : runOp verdict st (CacheOp.obj g) =
          ((buildEdges st.1 g).1, st.2) := rfl
      rw [runTrace, hstep]
      apply ih
      · intro p hp
        obtain ⟨ha, hb⟩ := h1 p hp
        exact ⟨lookupC_isSome_buildEdges _ _ _ _ ha,
          lookupC_isSome_buildEdges _ _ _ _ hb⟩
      · exact h2

/-- Symmetry preservation: a trace made of check calls only keeps the
cache symmetric (both orientations cached with the same value). -/
theorem runTrace_chk_symmetric (verdict : ℕ → ℕ → Bool)
    (tr : List CacheOp)
    (hchk : ∀ op ∈ tr, ∃ i j, op = CacheOp.chk i j) :
    ∀ st : Cache × List (ℕ × ℕ),
      (∀ x y v, lookupC st.1 x y = some v → lookupC st.1 y x = some v) →
      ∀ x y v, lookupC (runTrace verdict st tr).1 x y = some v →
        lookupC (runTrace verdict st tr).1 y x = some v := by
  induction tr with
  | nil => intro st hsym; exact hsym
  | cons op rest ih =>
    intro st hsym
    obtain ⟨i, j, rfl⟩ := hchk op (List.mem_cons_self op rest)
    rw [runTrace]
    apply ih (fun op hop => hchk op (List.mem_cons_of_mem _ hop))
    by_cases hhit : (lookupC st.1 i j).isSome
    · have he : runOp verdict st (CacheOp.chk i j) = st := by
        simp [runOp, check_hit verdict st.1 i j hhit]
      rw [he]
      exact hsym
    · intro x y v hxy
      have hstep : (runOp verdict st (CacheOp.chk i j)).1 =
          setC (setC st.1 j i (verdict i j)) i j (verdict i j) := by
        simp [runOp, check_miss verdict st.1 i j hhit]
      rw [hstep] at hxy ⊢
      rw [lookupC_setC] at hxy
      rw [lookupC_setC]
      by_cases h1x : ((x : ℕ), y) = (i, j)
      · rw [if_pos h1x] at hxy
        obtain ⟨rfl, rfl⟩ := Prod.ext_iff.1 h1x
        by_cases hji : ((y : ℕ), x) = (x, y)
        · rw [if_pos hji]
          exact hxy
        · rw [if_neg hji, lookupC_setC, if_pos rfl]
          exact hxy
      · rw [if_neg h1x, lookupC_setC] at hxy
        by_cases h2x : ((x : ℕ), y) = (j, i)
        · rw [if_pos h2x] at hxy
          obtain ⟨rfl, rfl⟩ := Prod.ext_iff.1 h2x
          rw [if_pos rfl]
          exact hxy
        · rw [if_neg h2x] at hxy
          have hrev := hsym x y v hxy
          by_cases h3 : ((y : ℕ), x) = (i, j)
          · obtain ⟨rfl, rfl⟩ := Prod.ext_iff.1 h3
            exact absurd rfl h2x
          · rw [if_neg h3, lookupC_setC]
            by_cases h4 : ((y : ℕ), x) = (j, i)
            · obtain ⟨rfl, rfl⟩ := Prod.ext_iff.1 h4
              exact absurd rfl h1x
            · rw [if_neg h4]
              exact hrev

end Gaest

/-- C6 (amended): over any sequence of cache operations (check calls,
objective evaluations, final graph construction) starting from the empty
cache, each unordered pair of sequences is aligned at most once; and as
long as the trace consists of check calls only, every cached pair (i, j)
has its reverse (j, i) cached with the same value. Full symmetry over
arbitrary traces is false: an operator[] read of an uncached pair by an
objective evaluation inserts a one-sided default entry (see the
counterexample). -/
theorem c6_aligned_once_and_symmetry (verdict : ℕ → ℕ → Bool)
    (tr : List Gaest.CacheOp) :
    (∀ a b : ℕ, ((Gaest.runTrace verdict ([], []) tr).2.countP
        fun p => decide (p = (a, b) ∨ p = (b, a))) ≤ 1) ∧
    ((∀ op ∈ tr, ∃ i j, op = Gaest.CacheOp.chk i j) →
      ∀ x y v,
        Gaest.lookupC (Gaest.runTrace verdict ([], []) tr).1 x y = some v →
        Gaest.lookupC (Gaest.runTrace verdict ([], []) tr).1 y x = some v) := by
  constructor
  · exact (Gaest.runTrace_aligned_once verdict tr ([], [])
      (by intro p hp; cases hp) (by intro a b; simp)).2
  · intro hchk
    exact Gaest.runTrace_chk_symmetric verdict tr hchk ([], [])
      (by intro x y v h; cases h)

/-- C6 witness: one check call on (0, 1) with an always-true verdict: the
pair is logged once and the cache is symmetric. -/
theorem c6_aligned_once_and_symmetry_witness :
    ((Gaest.runTrace (fun _ _ => true) ([], [])
        [Gaest.CacheOp.chk 0 1]).2.countP
      fun p => decide (p = (0, 1) ∨ p = (1, 0))) ≤ 1 ∧
    Gaest.lookupC (Gaest.runTrace (fun _ _ => true) ([], [])
      [Gaest.CacheOp.chk 0 1]).1 1 0 = some true := by
  have h := c6_aligned_once_and_symmetry (fun _ _ => true)
    [Gaest.CacheOp.chk 0 1]
  exact ⟨h.1 0 1,
    h.2 (fun op hop => ⟨0, 1, List.mem_singleton.1 hop⟩) 0 1 true
      (by decide)⟩

/-- C6 counterexample: after a single objective evaluation on the genome
[1, 0, 0] from the empty cache, (2, 0) is cached (with the default false)
while its reverse (0, 2) is not cached at all, refuting symmetry after
arbitrary operation sequences. -/
theorem c6_counterexample :
    Gaest.lookupC (Gaest.runTrace (fun _ _ => true) ([], [])
      [Gaest.CacheOp.obj [1, 0, 0]]).1 2 0 = some false ∧
    Gaest.lookupC (Gaest.runTrace (fun _ _ => true) ([], [])
      [Gaest.CacheOp.obj [1, 0, 0]]).1 0 2 = none := by
  decide


namespace Gaest

/-- The rejection draw returns the first stream value different from i:
the result is never i, and the consumed prefix consists of rejected copies
of i. -/
theorem drawNE_spec (i : ℕ) :
    ∀ (d : List ℕ) (j : ℕ) (rest : List ℕ), drawNE i d = some (j, rest) →
      j ≠ i ∧ ∃ pre, d = pre ++ j :: rest ∧ ∀ x ∈ pre, x = i := by
  intro d
  induction d with
  | nil => intro j rest h; cases h
  | cons x d ih =>
    intro j rest h
    by_cases hx : x = i
    · rw [drawNE, if_pos hx] at h
      obtain ⟨hne, pre, hpre, hall⟩ := ih j rest h
      refine ⟨hne, x :: pre, by rw [hpre]; rfl, ?_⟩
      intro z hz
      rcases List.mem_cons.1 hz with rfl | hz
      · exact hx
      · exact hall z hz
    · rw [drawNE, if_neg hx] at h
      cases h
      exact ⟨hx, [], rfl, by intro z hz; cases hz⟩

/-- Characterization of one mutation: the position is the next draw, the
value is the first subsequent draw different from it, the genome is
updated at that position and the cache goes through check. -/
theorem mutateOne_spec (verdict : ℕ → ℕ → Bool) (c : Cache) (g : List ℕ)
    (d : List ℕ) (c2 : Cache) (g2 d2 : List ℕ) (i j : ℕ)
    (h : mutateOne verdict c g d = some (c2, g2, d2, i, j)) :
    j ≠ i ∧ g2 = g.set i j ∧ c2 = (check verdict c i j).1 ∧
    ∃ rest, d = i :: rest ∧ drawNE i rest = some (j, d2) := by
  rcases d with _ | ⟨x, rest⟩
  · cases h
  · rw [mutateOne] at h
    rcases hd : drawNE x rest with _ | ⟨jj, r2⟩
    · rw [hd] at h; cases h
    · rw [hd] at h
      cases h
      exact ⟨(drawNE_spec i rest j d2 hd).1, rfl, rfl, rest, rfl, hd⟩

/-- Characterization of the mutation loop: when it completes it has
performed exactly k mutations, each setting a freshly drawn position to a
value different from it, and the final genome is the sequential
application of those sets. -/
theorem mutLoop_spec (verdict : ℕ → ℕ → Bool) :
    ∀ (k : ℕ) (c : Cache) (g d : List ℕ) (c2 : Cache) (g2 d2 : List ℕ)
      (evs : List (ℕ × ℕ)),
      mutLoop verdict k c g d = some (c2, g2, d2, evs) →
      evs.length = k ∧ (∀ e ∈ evs, e.2 ≠ e.1) ∧
      g2 = evs.foldl (fun gg e => gg.set e.1 e.2) g := by
  intro k
  induction k with
  | zero =>
    intro c g d c2 g2 d2 evs h
    rw [mutLoop] at h
    cases h
    exact ⟨rfl, by simp, rfl⟩
  | succ k ih =>
    intro c g d c2 g2 d2 evs h
    rcases hm : mutateOne verdict c g d with _ | ⟨c3, g3, d3, i, j⟩
    · simp [mutLoop, hm] at h
    · simp only [mutLoop, hm] at h
      rcases hl : mutLoop verdict k c3 g3 d3 with _ | ⟨c4, g4, d4, evs4⟩
      · rw [hl] at h
        simp at h
      · rw [hl] at h
        simp only [Option.map_some'] at h
        cases h
        obtain ⟨hlen, hne, hg⟩ := ih c3 g3 d3 c2 g2 d2 evs4 hl
        obtain ⟨hj, hg3, -, -⟩ := mutateOne_spec verdict c g d c3 g3 d3 i j hm
        refine ⟨by simp [hlen], ?_, ?_⟩
        · intro e he
          rcases List.mem_cons.1 he with rfl | he
          · exact hj
          · exact hne e he
        · show g2 = List.foldl (fun gg e => gg.set e.1 e.2) g ((i, j) :: evs4)
          rw [List.foldl_cons, ← hg3]
          exact hg

end Gaest

/-- C9: behaviour of the mutator. With total = floor(rate * N) (the
source's static_cast<int>(floor(rate * length))): when total = 0 and the
Bernoulli draw GAFlipCoin(rate * N) fails, no mutation happens and 0 is
returned; when total = 0 and the draw fires, exactly one mutation happens
and 1 is returned; when total > 0, exactly total mutations happen and
total is returned. Every mutation sets the freshly drawn position i (the
next value of the random stream, uniform by GARandomInt's contract, which
is external GAlib code) to the first subsequently drawn value j with
j ≠ i (rejection over the same uniform stream). -/
theorem c9_mutator (verdict : ℕ → ℕ → Bool) (rate : ℚ) (coin : Bool)
    (c : Gaest.Cache) (g draws : List ℕ) :
    ((⌊rate * (g.length : ℚ)⌋ = 0 ∧ coin = false) →
      Gaest.mutator verdict rate coin c g draws = some (c, g, draws, 0)) ∧
    ((⌊rate * (g.length : ℚ)⌋ = 0 ∧ coin = true) →
      ∀ (c2 : Gaest.Cache) (g2 d2 : List ℕ) (n : ℤ),
        Gaest.mutator verdict rate coin c g draws = some (c2, g2, d2, n) →
        n = 1 ∧ ∃ i j rest, draws = i :: rest ∧
          Gaest.drawNE i rest = some (j, d2) ∧ j ≠ i ∧
          g2 = g.set i j ∧ c2 = (Gaest.check verdict c i j).1) ∧
    (0 < ⌊rate * (g.length : ℚ)⌋ →
      ∀ (c2 : Gaest.Cache) (g2 d2 : List ℕ) (n : ℤ),
        Gaest.mutator verdict rate coin c g draws = some (c2, g2, d2, n) →
        n = ⌊rate * (g.length : ℚ)⌋ ∧
        ∃ evs : List (ℕ × ℕ),
          Gaest.mutLoop verdict (⌊rate * (g.length : ℚ)⌋).toNat c g draws =
            some (c2, g2, d2, evs) ∧
          (evs.length : ℤ) = ⌊rate * (g.length : ℚ)⌋ ∧
          (∀ e ∈ evs, e.2 ≠ e.1) ∧
          g2 = evs.foldl (fun gg e => gg.set e.1 e.2) g) := by
  refine ⟨?_, ?_, ?_⟩
  · rintro ⟨h0, rfl⟩
    unfold Gaest.mutator
    rw [if_pos h0]
    rfl
  · rintro ⟨h0, rfl⟩
    intro c2 g2 d2 n h
    unfold Gaest.mutator at h
    rw [if_pos h0, if_pos rfl] at h
    rcases hm : Gaest.mutateOne verdict c g draws with _ | ⟨c3, g3, d3, i, j⟩
    · rw [hm] at h
      simp at h
    · rw [hm] at h
      simp only [Option.map_some'] at h
      cases h
      obtain ⟨hj, hg3, hc3, rest, hrest, hne⟩ :=
        Gaest.mutateOne_spec verdict c g draws c2 g2 d2 i j hm
      exact ⟨rfl, i, j, rest, hrest, hne, hj, hg3, hc3⟩
  · intro h0 c2 g2 d2 n h
    unfold Gaest.mutator at h
    rw [if_neg (by omega)] at h
    rcases hl : Gaest.mutLoop verdict (⌊rate * (g.length : ℚ)⌋).toNat
        c g draws with _ | ⟨c4, g4, d4, evs4⟩
    · rw [hl] at h
      simp at h
    · rw [hl] at h
      simp only [Option.map_some'] at h
      cases h
      obtain ⟨hlen, hne, hg⟩ :=
        Gaest.mutLoop_spec verdict _ c g draws c2 g2 d2 evs4 hl
      exact ⟨rfl, evs4, by rw [← hl], by rw [hlen]; omega, hne, hg⟩

/-- C9 witness: rate 1/2 on a genome of length 4 gives total = 2; with the
stream [0, 0, 2, 1, 3] the mutator performs exactly two mutations (0 ↦ 2
after one rejected draw, then 1 ↦ 3) and returns 2. -/
theorem c9_mutator_witness :
    (0 : ℤ) < ⌊(1/2 : ℚ) * (([1, 0, 2, 0] : List ℕ).length : ℚ)⌋ ∧
    ∃ (c2 : Gaest.Cache) (g2 d2 : List ℕ) (n : ℤ),
      Gaest.mutator (fun _ _ => true) (1/2) true [] [1, 0, 2, 0]
        [0, 0, 2, 1, 3] = some (c2, g2, d2, n) ∧
      n = ⌊(1/2 : ℚ) * (([1, 0, 2, 0] : List ℕ).length : ℚ)⌋ ∧
      n = 2 ∧ g2 = [2, 3, 2, 0] := by
  have htot : ⌊(1/2 : ℚ) * (([1, 0, 2, 0] : List ℕ).length : ℚ)⌋ = 2 := by
    norm_num
  have hprem : (0 : ℤ) <
      ⌊(1/2 : ℚ) * (([1, 0, 2, 0] : List ℕ).length : ℚ)⌋ := by
    rw [htot]; norm_num
  have heval : Gaest.mutator (fun _ _ => true) (1/2) true [] [1, 0, 2, 0]
      [0, 0, 2, 1, 3] =
      some ([((1, 3), true), ((3, 1), true), ((0, 2), true), ((2, 0), true)],
        [2, 3, 2, 0], [], 2) := by
    unfold Gaest.mutator
    rw [htot, if_neg (by norm_num : ¬ (2 : ℤ) = 0)]
    rfl
  obtain ⟨hn, -⟩ := (c9_mutator (fun _ _ => true) (1/2) true []
    [1, 0, 2, 0] [0, 0, 2, 1, 3]).2.2 hprem _ _ _ _ heval
  exact ⟨hprem, _, _, _, _, heval, hn, by rw [hn, htot], rfl⟩

/-- C8: the claim says BOTH cluster printouts (stdout path and file-output
path) emit exactly the components of size ≥ 2 as clusters and then list
the remaining vertices as unclustered. The file-output loop guards each
DFS start with edges[i].size() != 0, but that guard is missing from the
stdout loop (gaest.cpp lines 507-536), so on stdout every isolated vertex
is printed as its own one-element "Cluster" and the "Unclustered
sequences" listing is always empty. Witnessed on three vertices with one
true edge {0,1} and vertex 2 isolated: the file path prints cluster [0,1]
and unclustered [2] as the claim demands, the stdout path prints clusters
[0,1] and [2] and nothing unclustered. -/
theorem c8_stdout_prints_singletons :
    Gaest.filePathOut
        (Gaest.buildEdges
          [((0, 1), true), ((1, 0), true), ((2, 0), false), ((0, 2), false)]
          [1, 0, 0]).2 3 = ([[0, 1]], [2]) ∧
    Gaest.stdoutPathOut
        (Gaest.buildEdges
          [((0, 1), true), ((1, 0), true), ((2, 0), false), ((0, 2), false)]
          [1, 0, 0]).2 3 = ([[0, 1], [2]], []) := by
  constructor
  · rfl
  · rfl

namespace Gaest

/-- Reading a list at the index just written. -/
theorem getD_set_self {α : Type} (l : List α) (i : ℕ) (a b : α)
    (h : i < l.length) : (l.set i a).getD i b = a := by
  simp [List.getD, List.getElem?_set, h]

/-- Reading a list at an index other than the one written. -/
theorem getD_set_ne {α : Type} (l : List α) (i j : ℕ) (a b : α) (h : i ≠ j) :
    (l.set i a).getD j b = l.getD j b := by
  simp [List.getD, List.getElem?_set, h]

/-- Membership in the unvisited set. -/
theorem mem_unvisitedF (n : ℕ) (nodes : List Bool) (v : ℕ) :
    v ∈ unvisitedF n nodes ↔ v < n ∧ nodes.getD v false = false := by
  simp [unvisitedF, Finset.mem_filter, Finset.mem_range]

/-- More marks, fewer unvisited vertices. -/
theorem unvisitedF_anti (n : ℕ) (a b : List Bool)
    (h : ∀ v, a.getD v false = true → b.getD v false = true) :
    unvisitedF n b ⊆ unvisitedF n a := by
  intro v hv
  rw [mem_unvisitedF] at hv ⊢
  refine ⟨hv.1, ?_⟩
  cases hab : a.getD v false
  · rfl
  · have hb := h v hab
    rw [hb] at hv
    exact absurd hv.2.symm Bool.false_ne_true

/-- Marking a vertex removes it from the unvisited set. -/
theorem unvisitedF_set_true (n : ℕ) (nodes : List Bool) (i : ℕ)
    (hlen : nodes.length = n) (hi : i < n) :
    unvisitedF n (nodes.set i true) = (unvisitedF n nodes).erase i := by
  ext v
  rw [Finset.mem_erase, mem_unvisitedF, mem_unvisitedF]
  by_cases hvi : v = i
  · subst hvi
    rw [getD_set_self nodes v true false (by omega)]
    simp
  · rw [getD_set_ne nodes i v true false (fun h => hvi h.symm)]
    constructor
    · intro h; exact ⟨hvi, h⟩
    · intro h; exact h.2

/-- Marking an unvisited in-range vertex shrinks the unvisited count by
one. -/
theorem card_unvisitedF_set_true (n : ℕ) (nodes : List Bool) (i : ℕ)
    (hlen : nodes.length = n) (hi : i < n)
    (hunm : nodes.getD i false = false) :
    (unvisitedF n (nodes.set i true)).card + 1 =
      (unvisitedF n nodes).card := by
  have hmem : i ∈ unvisitedF n nodes := by
    rw [mem_unvisitedF]; exact ⟨hi, hunm⟩
  rw [unvisitedF_set_true n nodes i hlen hi, Finset.card_erase_of_mem hmem]
  have hpos : 0 < (unvisitedF n nodes).card :=
    Finset.card_pos.mpr ⟨i, hmem⟩
  omega

/-- Correctness of the DFS traversecluster with sufficient fuel: the
visited list keeps its length, marks only grow, the start vertex ends up
marked, a vertex is newly marked exactly when it is connected to the start
by an edge path through initially-unvisited vertices (soundness here, the
converse below through the closure property: an initially-unvisited vertex
that ends up marked has all its neighbors marked), and the number of
unvisited vertices drops by exactly the returned count. -/
theorem tc_spec (E : List (List ℕ)) (n : ℕ)
    (hrange : ∀ a b, b ∈ E.getD a [] → b < n) :
    ∀ (fuel : ℕ) (nodes : List Bool) (i : ℕ),
      nodes.length = n → (unvisitedF n nodes).card < fuel → i < n →
      (traversecluster E fuel nodes i).1.length = n ∧
      (∀ v, nodes.getD v false = true →
        (traversecluster E fuel nodes i).1.getD v false = true) ∧
      (∀ v, (traversecluster E fuel nodes i).1.getD v false = true →
        nodes.getD v false = true ∨
        (nodes.getD i false = false ∧
          Relation.ReflTransGen
            (fun x y => y ∈ E.getD x [] ∧ nodes.getD y false = false) i v)) ∧
      (traversecluster E fuel nodes i).1.getD i false = true ∧
      (∀ v w, nodes.getD v false = false →
        (traversecluster E fuel nodes i).1.getD v false = true →
        w ∈ E.getD v [] →
        (traversecluster E fuel nodes i).1.getD w false = true) ∧
      (unvisitedF n (traversecluster E fuel nodes i).1).card +
        (traversecluster E fuel nodes i).2.1 =
        (unvisitedF n nodes).card := by
  intro fuel
  induction fuel with
  | zero =>
    intro nodes i hlen hfuel hi
    exact absurd hfuel (Nat.not_lt_zero _)
  | succ fuel ih =>
    intro nodes i hlen hfuel hi
    by_cases hmk : nodes.getD i false = true
    · have hr : traversecluster E (fuel+1) nodes i = (nodes, 0, []) := by
        show (if nodes.getD i false = true then (nodes, 0, [])
          else (E.getD i []).foldl
            (fun st j =>
              let r := traversecluster E fuel st.1 j
              (r.1, st.2.1 + r.2.1, st.2.2 ++ r.2.2))
            (nodes.set i true, 1, [i])) = (nodes, 0, [])
        rw [if_pos hmk]
      rw [hr]
      refine ⟨hlen, fun v h => h, fun v h => Or.inl h, hmk, ?_, ?_⟩
      · intro v w h1 h2 _
        rw [h1] at h2
        exact absurd h2 Bool.false_ne_true
      · show (unvisitedF n nodes).card + 0 = (unvisitedF n nodes).card
        omega
    · have hmkf : nodes.getD i false = false := by
        cases h : nodes.getD i false
        · rfl
        · exact absurd h hmk
      have hr : traversecluster E (fuel+1) nodes i =
          (E.getD i []).foldl
            (fun st j =>
              let r := traversecluster E fuel st.1 j
              (r.1, st.2.1 + r.2.1, st.2.2 ++ r.2.2))
            (nodes.set i true, 1, [i]) := by
        show (if nodes.getD i false = true then (nodes, 0, [])
          else (E.getD i []).foldl
            (fun st j =>
              let r := traversecluster E fuel st.1 j
              (r.1, st.2.1 + r.2.1, st.2.2 ++ r.2.2))
            (nodes.set i true, 1, [i])) = _
        rw [if_neg hmk]
      have hs0len : (nodes.set i true).length = n := by
        rw [List.length_set]; exact hlen
      have hsmono : ∀ v, nodes.getD v false = true →
          (nodes.set i true).getD v false = true := by
        intro v hv
        by_cases hvi : v = i
        · subst hvi; exact getD_set_self nodes v true false (by omega)
        · rw [getD_set_ne nodes i v true false (fun h => hvi h.symm)]
          exact hv
      have hcard0 : (unvisitedF n (nodes.set i true)).card + 1 =
          (unvisitedF n nodes).card :=
        card_unvisitedF_set_true n nodes i hlen hi hmkf
      have hfold : ∀ (l : List ℕ), (∀ a ∈ l, a ∈ E.getD i []) →
          ∀ (st : List Bool × ℕ × List ℕ),
          st.1.length = n →
          (∀ v, (nodes.set i true).getD v false = true →
            st.1.getD v false = true) →
          (∀ v, st.1.getD v false = true →
            nodes.getD v false = true ∨
            Relation.ReflTransGen
              (fun x y => y ∈ E.getD x [] ∧ nodes.getD y false = false)
              i v) →
          (∀ v w, nodes.getD v false = false → v ≠ i →
            st.1.getD v false = true → w ∈ E.getD v [] →
            st.1.getD w false = true) →
          (unvisitedF n st.1).card + st.2.1 = (unvisitedF n nodes).card →
          ∀ res, res = l.foldl
            (fun st j =>
              let r := traversecluster E fuel st.1 j
              (r.1, st.2.1 + r.2.1, st.2.2 ++ r.2.2)) st →
          res.1.length = n ∧
          (∀ v, st.1.getD v false = true → res.1.getD v false = true) ∧
          (∀ v, res.1.getD v false = true →
            nodes.getD v false = true ∨
            Relation.ReflTransGen
              (fun x y => y ∈ E.getD x [] ∧ nodes.getD y false = false)
              i v) ∧
          (∀ v w, nodes.getD v false = false → v ≠ i →
            res.1.getD v false = true → w ∈ E.getD v [] →
            res.1.getD w false = true) ∧
          (∀ a ∈ l, res.1.getD a false = true) ∧
          (unvisitedF n res.1).card + res.2.1 =
            (unvisitedF n nodes).card := by
        intro l
        induction l with
        | nil =>
          intro hsub st hstlen hP1 hP2 hP3 hP4 res hres
          subst hres
          exact ⟨hstlen, fun v h => h, hP2, hP3,
            fun a ha => absurd ha (List.not_mem_nil a), hP4⟩
        | cons j l2 ihl =>
          intro hsub st hstlen hP1 hP2 hP3 hP4 res hres
          subst hres
          rw [List.foldl_cons]
          have hns : ∀ v, nodes.getD v false = true →
              st.1.getD v false = true :=
            fun v hv => hP1 v (hsmono v hv)
          have hjn : j < n := hrange i j (hsub j (List.mem_cons_self j l2))
          have hsub0 : unvisitedF n st.1 ⊆ unvisitedF n (nodes.set i true) :=
            unvisitedF_anti n _ _ hP1
          have hle : (unvisitedF n st.1).card ≤
              (unvisitedF n (nodes.set i true)).card :=
            Finset.card_le_card hsub0
          have hflt : (unvisitedF n st.1).card < fuel := by omega
          obtain ⟨nA, nB, nC, nD, nE, nF⟩ := ih st.1 j hstlen hflt hjn
          have p1s : ∀ v, (nodes.set i true).getD v false = true →
              (traversecluster E fuel st.1 j).1.getD v false = true :=
            fun v hv => nB v (hP1 v hv)
          have p2s : ∀ v,
              (traversecluster E fuel st.1 j).1.getD v false = true →
              nodes.getD v false = true ∨
              Relation.ReflTransGen
                (fun x y => y ∈ E.getD x [] ∧ nodes.getD y false = false)
                i v := by
            intro v hv
            rcases nC v hv with h | ⟨hju, hpath⟩
            · exact hP2 v h
            · refine Or.inr ?_
              refine Relation.ReflTransGen.head
                ⟨hsub j (List.mem_cons_self j l2), ?_⟩ ?_
              · cases hnj : nodes.getD j false
                · rfl
                · exfalso
                  have hx := hns j hnj
                  rw [hx] at hju
                  exact Bool.false_ne_true hju.symm
              · refine Relation.ReflTransGen.mono ?_ hpath
                intro x y hxy
                refine ⟨hxy.1, ?_⟩
                cases hny : nodes.getD y false
                · rfl
                · exfalso
                  have hx := hns y hny
                  have h2 := hxy.2
                  rw [hx] at h2
                  exact Bool.false_ne_true h2.symm
          have p3s : ∀ v w, nodes.getD v false = false → v ≠ i →
              (traversecluster E fuel st.1 j).1.getD v false = true →
              w ∈ E.getD v [] →
              (traversecluster E fuel st.1 j).1.getD w false = true := by
            intro v w hnv hvne hv hw
            by_cases hsv : st.1.getD v false = true
            · exact nB w (hP3 v w hnv hvne hsv hw)
            · have hsvf : st.1.getD v false = false := by
                cases h : st.1.getD v false
                · rfl
                · exact absurd h hsv
              exact nE v w hsvf hv hw
          have p4s : (unvisitedF n
              (traversecluster E fuel st.1 j).1).card +
              (st.2.1 + (traversecluster E fuel st.1 j).2.1) =
              (unvisitedF n nodes).card := by omega
          obtain ⟨rA, rB, rC, rD, rN, rF⟩ := ihl
            (fun a ha => hsub a (List.mem_cons_of_mem j ha))
            ((traversecluster E fuel st.1 j).1,
              st.2.1 + (traversecluster E fuel st.1 j).2.1,
              st.2.2 ++ (traversecluster E fuel st.1 j).2.2)
            nA p1s p2s p3s p4s _ rfl
          refine ⟨rA, fun v hv => rB v (nB v hv), rC, rD, ?_, rF⟩
          intro a ha
          rcases List.mem_cons.mp ha with h | h
          · subst h; exact rB a nD
          · exact rN a h
      obtain ⟨rA, rB, rC, rD, rN, rF⟩ := hfold (E.getD i [])
        (fun a ha => ha) (nodes.set i true, 1, [i]) hs0len
        (fun v hv => hv)
        (by
          intro v hv
          by_cases hvi : v = i
          · subst hvi; exact Or.inr Relation.ReflTransGen.refl
          · rw [getD_set_ne nodes i v true false
              (fun h => hvi h.symm)] at hv
            exact Or.inl hv)
        (by
          intro v w hnv hvne hv _
          rw [getD_set_ne nodes i v true false
            (fun h => hvne h.symm)] at hv
          rw [hnv] at hv
          exact absurd hv Bool.false_ne_true)
        (by
          show (unvisitedF n (nodes.set i true)).card + 1 =
            (unvisitedF n nodes).card
          exact hcard0)
        _ rfl
      rw [hr]
      refine ⟨rA, fun v hv => rB v (hsmono v hv), ?_,
        rB i (getD_set_self nodes i true false (by omega)), ?_, rF⟩
      · intro v hv
        rcases rC v hv with h | h
        · exact Or.inl h
        · exact Or.inr ⟨hmkf, h⟩
      · intro v w hnv hv hw
        by_cases hvi : v = i
        · subst hvi; exact rN w hw
        · exact rD v w hnv hvi hv hw

end Gaest

namespace Gaest

/-- The operator[] read returns the cached value, reading absent as
false. -/
theorem readIns_snd (c : Cache) (i j : ℕ) :
    (readIns c i j).2 = (lookupC c i j).getD false := by
  unfold readIns
  cases h : lookupC c i j <;> rfl

/-- The operator[] read leaves every other key's value unchanged. -/
theorem readIns_lookup_ne (c : Cache) (i j x y : ℕ)
    (h : (x, y) ≠ (i, j)) :
    lookupC (readIns c i j).1 x y = lookupC c x y := by
  unfold readIns
  cases he : lookupC c i j
  · show lookupC (setC c i j false) x y = _
    rw [lookupC_setC, if_neg h]
  · rfl

/-- pushEdge preserves the number of adjacency rows. -/
theorem pushEdge_length (e : List (List ℕ)) (a b : ℕ) :
    (pushEdge e a b).length = e.length := by
  simp [pushEdge]

/-- Membership in an adjacency row after an in-range pushEdge. -/
theorem mem_pushEdge (e : List (List ℕ)) (x y a b : ℕ)
    (hx : x < e.length) :
    b ∈ (pushEdge e x y).getD a [] ↔
      b ∈ e.getD a [] ∨ (a = x ∧ b = y) := by
  unfold pushEdge
  by_cases hax : a = x
  · subst hax
    rw [getD_set_self e a _ [] hx, List.mem_append, List.mem_singleton]
    constructor
    · rintro (h | h)
      · exact Or.inl h
      · exact Or.inr ⟨rfl, h⟩
    · rintro (h | ⟨-, h⟩)
      · exact Or.inl h
      · exact Or.inr h
  · rw [getD_set_ne e x a _ [] (fun h => hax h.symm)]
    constructor
    · exact Or.inl
    · rintro (h | ⟨h, -⟩)
      · exact h
      · exact absurd h hax

/-- The built cluster graph has one adjacency row per genome position. -/
theorem buildEdges_length (c : Cache) (g : List ℕ) :
    (buildEdges c g).2.length = g.length := by
  have key : ∀ (l : List ℕ) (c0 : Cache) (e0 : List (List ℕ)),
      (l.foldl (fun st i =>
        if (readIns st.1 i (g.getD i 0)).2 then
          ((readIns st.1 i (g.getD i 0)).1,
            pushEdge (pushEdge st.2 i (g.getD i 0)) (g.getD i 0) i)
        else ((readIns st.1 i (g.getD i 0)).1, st.2)) (c0, e0)).2.length =
      e0.length := by
    intro l
    induction l with
    | nil => intro c0 e0; rfl
    | cons i rest ih =>
      intro c0 e0
      rw [List.foldl_cons]
      by_cases hv : (readIns c0 i (g.getD i 0)).2 = true
      · rw [if_pos hv, ih, pushEdge_length, pushEdge_length]
      · rw [if_neg hv]
        exact ih _ _
  have h2 := key (List.range g.length) c (List.replicate g.length [])
  rw [List.length_replicate] at h2
  exact h2

/-- Adjacency of the spec's cluster graph is symmetric. -/
theorem adjacent_symm (c : Cache) (g : List ℕ) (a b : ℕ)
    (h : adjacent c g a b) : adjacent c g b a := by
  obtain ⟨i, hi, hl, hab⟩ := h
  exact ⟨i, hi, hl, hab.symm⟩

/-- Spec adjacency only joins in-range vertices. -/
theorem adjacent_lt (c : Cache) (g : List ℕ)
    (hg : ∀ x ∈ g, x < g.length) (a b : ℕ) (h : adjacent c g a b) :
    a < g.length ∧ b < g.length := by
  obtain ⟨i, hi, -, hab⟩ := h
  have hgi : g.getD i 0 < g.length :=
    hg _ (by rw [List.getD_eq_getElem g 0 hi]; exact List.getElem_mem hi)
  rcases hab with ⟨ha, hb⟩ | ⟨hb, ha⟩
  · subst ha; subst hb; exact ⟨hi, hgi⟩
  · subst ha; subst hb; exact ⟨hgi, hi⟩

/-- The adjacency rows built by the code from the cache list exactly the
spec's edges: b sits in row a iff the spec's graph joins a and b. The
reads go through the evolving cache, but each step reads a key whose
first component no other step inserts, so every read sees the original
cache's value. -/
theorem mem_buildEdges (c : Cache) (g : List ℕ)
    (hg : ∀ x ∈ g, x < g.length) (a b : ℕ) :
    b ∈ (buildEdges c g).2.getD a [] ↔ adjacent c g a b := by
  have key : ∀ (l : List ℕ), l.Nodup → (∀ x ∈ l, x < g.length) →
      ∀ (c0 : Cache) (e0 : List (List ℕ)), e0.length = g.length →
      (∀ x ∈ l, lookupC c0 x (g.getD x 0) = lookupC c x (g.getD x 0)) →
      ∀ res, res = l.foldl (fun st i =>
        if (readIns st.1 i (g.getD i 0)).2 then
          ((readIns st.1 i (g.getD i 0)).1,
            pushEdge (pushEdge st.2 i (g.getD i 0)) (g.getD i 0) i)
        else ((readIns st.1 i (g.getD i 0)).1, st.2)) (c0, e0) →
      (b ∈ res.2.getD a [] ↔
        (b ∈ e0.getD a [] ∨
          ∃ i ∈ l, lookupC c i (g.getD i 0) = some true ∧
            ((a = i ∧ b = g.getD i 0) ∨ (b = i ∧ a = g.getD i 0)))) := by
    intro l
    induction l with
    | nil =>
      intro _ _ c0 e0 _ _ res hres
      subst hres
      constructor
      · exact fun h => Or.inl h
      · rintro (h | ⟨i, hi, -⟩)
        · exact h
        · exact absurd hi (List.not_mem_nil i)
    | cons i l2 ihl =>
      intro hnd hlt c0 e0 he0 hinv res hres
      subst hres
      rw [List.foldl_cons]
      obtain ⟨hni, hnd2⟩ := List.nodup_cons.mp hnd
      have hi0 : i < g.length := hlt i (List.mem_cons_self i l2)
      have hgi : g.getD i 0 < g.length :=
        hg _ (by rw [List.getD_eq_getElem g 0 hi0]
                 exact List.getElem_mem hi0)
      have hread : lookupC c0 i (g.getD i 0) = lookupC c i (g.getD i 0) :=
        hinv i (List.mem_cons_self i l2)
      have hinv2 : ∀ x ∈ l2,
          lookupC (readIns c0 i (g.getD i 0)).1 x (g.getD x 0) =
            lookupC c x (g.getD x 0) := by
        intro x hx
        have hne : (x, g.getD x 0) ≠ (i, g.getD i 0) := by
          intro hh
          rw [Prod.mk.injEq] at hh
          exact hni (hh.1 ▸ hx)
        rw [readIns_lookup_ne c0 i (g.getD i 0) x (g.getD x 0) hne]
        exact hinv x (List.mem_cons_of_mem i hx)
      by_cases hv : (readIns c0 i (g.getD i 0)).2 = true
      · rw [if_pos hv]
        have hvt : lookupC c i (g.getD i 0) = some true := by
          rw [readIns_snd, hread] at hv
          cases hvv : lookupC c i (g.getD i 0)
          · rw [hvv] at hv
            exact absurd hv Bool.false_ne_true
          · rw [hvv] at hv
            simp only [Option.getD_some] at hv
            rw [hv]
        have hlen1 :
            (pushEdge (pushEdge e0 i (g.getD i 0)) (g.getD i 0) i).length =
              g.length := by
          rw [pushEdge_length, pushEdge_length]
          exact he0
        have hrec := ihl hnd2 (fun x hx => hlt x (List.mem_cons_of_mem i hx))
          (readIns c0 i (g.getD i 0)).1
          (pushEdge (pushEdge e0 i (g.getD i 0)) (g.getD i 0) i)
          hlen1 hinv2 _ rfl
        rw [hrec,
          mem_pushEdge _ (g.getD i 0) i a b
            (by rw [pushEdge_length, he0]; exact hgi),
          mem_pushEdge e0 i (g.getD i 0) a b (by rw [he0]; exact hi0)]
        constructor
        · rintro (((h | h) | h) | ⟨x, hx, hP⟩)
          · exact Or.inl h
          · exact Or.inr ⟨i, List.mem_cons_self i l2, hvt, Or.inl h⟩
          · exact Or.inr ⟨i, List.mem_cons_self i l2, hvt,
              Or.inr ⟨h.2, h.1⟩⟩
          · exact Or.inr ⟨x, List.mem_cons_of_mem i hx, hP⟩
        · rintro (h | ⟨x, hx, hP⟩)
          · exact Or.inl (Or.inl (Or.inl h))
          · rcases List.mem_cons.mp hx with rfl | hx2
            · rcases hP.2 with ⟨ha, hb⟩ | ⟨hb, ha⟩
              · exact Or.inl (Or.inl (Or.inr ⟨ha, hb⟩))
              · exact Or.inl (Or.inr ⟨ha, hb⟩)
            · exact Or.inr ⟨x, hx2, hP⟩
      · rw [if_neg hv]
        have hvf : lookupC c i (g.getD i 0) ≠ some true := by
          intro hvv
          rw [readIns_snd, hread, hvv] at hv
          exact hv rfl
        have hrec := ihl hnd2 (fun x hx => hlt x (List.mem_cons_of_mem i hx))
          (readIns c0 i (g.getD i 0)).1 e0 he0 hinv2 _ rfl
        rw [hrec]
        constructor
        · rintro (h | ⟨x, hx, hP⟩)
          · exact Or.inl h
          · exact Or.inr ⟨x, List.mem_cons_of_mem i hx, hP⟩
        · rintro (h | ⟨x, hx, hP⟩)
          · exact Or.inl h
          · rcases List.mem_cons.mp hx with rfl | hx2
            · exact absurd hP.1 hvf
            · exact Or.inr ⟨x, hx2, hP⟩
  have h0 : ∀ a2, (List.replicate g.length ([] : List ℕ)).getD a2 [] = [] := by
    intro a2
    rcases lt_or_le a2 g.length with h | h
    · simp [List.getD, List.getElem?_replicate, h]
    · rw [List.getD_eq_default]
      rw [List.length_replicate]
      omega
  have hk := key (List.range g.length) (List.nodup_range g.length)
    (fun x hx => List.mem_range.mp hx) c (List.replicate g.length [])
    (by rw [List.length_replicate]) (fun x _ => rfl) _ rfl
  rw [show (buildEdges c g).2 =
      ((List.range g.length).foldl (fun st i =>
        if (readIns st.1 i (g.getD i 0)).2 then
          ((readIns st.1 i (g.getD i 0)).1,
            pushEdge (pushEdge st.2 i (g.getD i 0)) (g.getD i 0) i)
        else ((readIns st.1 i (g.getD i 0)).1, st.2))
        (c, List.replicate g.length [])).2 from rfl,
    hk, h0 a]
  constructor
  · rintro (h | ⟨i, hi, hP⟩)
    · exact absurd h (List.not_mem_nil b)
    · exact ⟨i, List.mem_range.mp hi, hP⟩
  · rintro ⟨i, hi, hP⟩
    exact Or.inr ⟨i, List.mem_range.mpr hi, hP⟩

end Gaest

namespace Gaest

/-- Spec reachability is symmetric, the graph being undirected. -/
theorem reach_symm (c : Cache) (g : List ℕ) (a b : ℕ)
    (h : Relation.ReflTransGen (adjacent c g) a b) :
    Relation.ReflTransGen (adjacent c g) b a := by
  induction h with
  | refl => exact Relation.ReflTransGen.refl
  | tail hxy hadj ih =>
    exact Relation.ReflTransGen.head (adjacent_symm c g _ _ hadj) ih

/-- Zero expansion rounds leave the singleton start. -/
theorem reachSet_zero (c : Cache) (g : List ℕ) (a : ℕ) :
    reachSet c g 0 a = {a} := rfl

/-- One more expansion round adds the in-range neighbors of the set. -/
theorem reachSet_succ (c : Cache) (g : List ℕ) (k : ℕ) (a : ℕ) :
    reachSet c g (k+1) a = reachSet c g k a ∪
      (Finset.range g.length).filter
        fun b => ∃ x ∈ reachSet c g k a, adjacent c g x b := by
  unfold reachSet
  rw [Function.iterate_succ_apply']

/-- The executable reachability test coincides with the
reflexive-transitive closure of spec adjacency: length-many expansion
rounds saturate, because an unsaturated chain grows by at least one vertex
per round inside a universe of length + 1 vertices. -/
theorem reachB_iff (c : Cache) (g : List ℕ)
    (hg : ∀ x ∈ g, x < g.length) (a b : ℕ) :
    reachB c g a b = true ↔
      Relation.ReflTransGen (adjacent c g) a b := by
  unfold reachB
  rw [decide_eq_true_eq]
  have hsub : ∀ k, reachSet c g k a ⊆ reachSet c g (k+1) a := by
    intro k
    rw [reachSet_succ]
    exact Finset.subset_union_left
  have hmema : ∀ k, a ∈ reachSet c g k a := by
    intro k
    induction k with
    | zero => rw [reachSet_zero]; exact Finset.mem_singleton_self a
    | succ k ih => exact hsub k ih
  have hbound : ∀ k, reachSet c g k a ⊆ insert a (Finset.range g.length) := by
    intro k
    induction k with
    | zero =>
      rw [reachSet_zero]
      intro u hu
      rw [Finset.mem_singleton] at hu
      subst hu
      exact Finset.mem_insert_self u _
    | succ k ih =>
      rw [reachSet_succ]
      intro u hu
      rcases Finset.mem_union.mp hu with h | h
      · exact ih h
      · exact Finset.mem_insert_of_mem (Finset.mem_filter.mp h).1
  have hsound : ∀ k u, u ∈ reachSet c g k a →
      Relation.ReflTransGen (adjacent c g) a u := by
    intro k
    induction k with
    | zero =>
      intro u hu
      rw [reachSet_zero, Finset.mem_singleton] at hu
      subst hu
      exact Relation.ReflTransGen.refl
    | succ k ih =>
      intro u hu
      rw [reachSet_succ] at hu
      rcases Finset.mem_union.mp hu with h | h
      · exact ih u h
      · obtain ⟨-, x, hx, hadj⟩ := Finset.mem_filter.mp h
        exact Relation.ReflTransGen.tail (ih x hx) hadj
  have hfix : ∃ k ≤ g.length, reachSet c g (k+1) a = reachSet c g k a := by
    by_contra hno
    push_neg at hno
    have hgrow : ∀ k, k ≤ g.length + 1 → k + 1 ≤ (reachSet c g k a).card := by
      intro k
      induction k with
      | zero =>
        intro _
        rw [reachSet_zero, Finset.card_singleton]
      | succ k ih =>
        intro hk
        have h1 : k + 1 ≤ (reachSet c g k a).card := ih (by omega)
        have hss : reachSet c g k a ⊂ reachSet c g (k+1) a :=
          ssubset_of_subset_of_ne (hsub k)
            (fun h => hno k (by omega) h.symm)
        have h2 := Finset.card_lt_card hss
        omega
    have hcard : (reachSet c g (g.length + 1) a).card ≤ g.length + 1 := by
      have h1 := Finset.card_le_card (hbound (g.length + 1))
      have h2 : (insert a (Finset.range g.length)).card ≤ g.length + 1 := by
        have := Finset.card_insert_le a (Finset.range g.length)
        rw [Finset.card_range] at this
        omega
      omega
    have := hgrow (g.length + 1) le_rfl
    omega
  obtain ⟨k, hk, hfixk⟩ := hfix
  have hstab : ∀ d, reachSet c g (k + d) a = reachSet c g k a := by
    intro d
    induction d with
    | zero => rfl
    | succ d ih =>
      have he : k + (d + 1) = (k + d) + 1 := by omega
      rw [he, reachSet_succ]
      rw [ih]
      rw [← reachSet_succ]
      exact hfixk
  have hlenk : reachSet c g g.length a = reachSet c g k a := by
    have he : g.length = k + (g.length - k) := by omega
    rw [he, hstab]
  have hcomp : ∀ u, Relation.ReflTransGen (adjacent c g) a u →
      u ∈ reachSet c g k a := by
    intro u hu
    induction hu with
    | refl => exact hmema k
    | tail hxu hadj ih =>
      have hun := (adjacent_lt c g hg _ _ hadj).2
      rw [← hfixk, reachSet_succ]
      refine Finset.mem_union_right _ ?_
      rw [Finset.mem_filter]
      exact ⟨Finset.mem_range.mpr hun, _, ih, hadj⟩
  constructor
  · intro h
    exact hsound g.length b h
  · intro h
    rw [hlenk]
    exact hcomp b h

/-- Membership in a spec component. -/
theorem mem_component (c : Cache) (g : List ℕ) (i v : ℕ) :
    v ∈ component c g i ↔ v < g.length ∧ reachB c g i v = true := by
  unfold component
  rw [Finset.mem_filter, Finset.mem_range]

/-- Mutually reachable vertices have the same component. -/
theorem component_eq_of_reach (c : Cache) (g : List ℕ)
    (hg : ∀ x ∈ g, x < g.length) (a b : ℕ)
    (h : Relation.ReflTransGen (adjacent c g) a b) :
    component c g a = component c g b := by
  ext v
  rw [mem_component, mem_component]
  constructor
  · rintro ⟨hv, hr⟩
    refine ⟨hv, ?_⟩
    rw [reachB_iff c g hg] at hr ⊢
    exact Relation.ReflTransGen.trans (reach_symm c g a b h) hr
  · rintro ⟨hv, hr⟩
    refine ⟨hv, ?_⟩
    rw [reachB_iff c g hg] at hr ⊢
    exact Relation.ReflTransGen.trans h hr

end Gaest

/-- C7: for every genome whose entries stay inside the vertex range,
objective() equals the spec's fitness: the sum over the connected
components of the cluster graph (vertices 0..N-1, an edge joining i and
genome[i] exactly when the cached verdict for (i, genome[i]) is true) of
(k - 1)^2 for a component of size k. The proof runs the code's
visited-flag loop against the spec's components: each DFS start on an
unvisited vertex marks exactly the component of that vertex and returns
its size, while a visited vertex's component is already in the
accumulated image. -/
theorem c7_objective_components (c : Gaest.Cache) (g : List ℕ)
    (hg : ∀ x ∈ g, x < g.length) :
    Gaest.objective c g = Gaest.specObjective c g := by
  have hrangeE : ∀ x y, y ∈ (Gaest.buildEdges c g).2.getD x [] →
      y < g.length := by
    intro x y hxy
    exact (Gaest.adjacent_lt c g hg x y
      ((Gaest.mem_buildEdges c g hg x y).mp hxy)).2
  have loop : ∀ (F : List Bool × ℤ → ℕ → List Bool × ℤ),
      (∀ (nodes : List Bool) (acc : ℤ) (i : ℕ), F (nodes, acc) i =
        if nodes.getD i false = true then (nodes, acc)
        else
          ((Gaest.traversecluster (Gaest.buildEdges c g).2
              (g.length + 1) nodes i).1,
            acc + (((Gaest.traversecluster (Gaest.buildEdges c g).2
              (g.length + 1) nodes i).2.1 : ℤ) - 1) ^ 2)) →
      ∀ (l : List ℕ), (∀ x ∈ l, x < g.length) →
      ∀ (P : Finset ℕ) (nodes : List Bool) (acc : ℤ),
      nodes.length = g.length →
      (∀ v, nodes.getD v false = true ↔
        (v < g.length ∧ ∃ j ∈ P,
          Relation.ReflTransGen (Gaest.adjacent c g) j v)) →
      acc = ∑ comp ∈ P.image (Gaest.component c g),
        ((comp.card : ℤ) - 1) ^ 2 →
      (List.foldl F (nodes, acc) l).2 =
        ∑ comp ∈ (P ∪ l.toFinset).image (Gaest.component c g),
          ((comp.card : ℤ) - 1) ^ 2 := by
    intro F hF l
    induction l with
    | nil =>
      intro _ P nodes acc _ _ hacc
      rw [List.toFinset_nil, Finset.union_empty]
      exact hacc
    | cons i l2 ihl =>
      intro hlt P nodes acc hlen hmarked hacc
      have hi : i < g.length := hlt i (List.mem_cons_self i l2)
      have hUnion : P ∪ (i :: l2).toFinset = insert i P ∪ l2.toFinset := by
        rw [List.toFinset_cons, Finset.union_insert, Finset.insert_union]
      rw [List.foldl_cons, hF nodes acc i, hUnion]
      by_cases hmk : nodes.getD i false = true
      · rw [if_pos hmk]
        obtain ⟨-, j, hjP, hji⟩ := (hmarked i).mp hmk
        have hmemP : Gaest.component c g i ∈
            P.image (Gaest.component c g) :=
          Finset.mem_image.mpr
            ⟨j, hjP, Gaest.component_eq_of_reach c g hg j i hji⟩
        have hmarked2 : ∀ v, nodes.getD v false = true ↔
            (v < g.length ∧ ∃ j2 ∈ insert i P,
              Relation.ReflTransGen (Gaest.adjacent c g) j2 v) := by
          intro v
          rw [hmarked v]
          constructor
          · rintro ⟨hv, j2, hj2, hr⟩
            exact ⟨hv, j2, Finset.mem_insert_of_mem hj2, hr⟩
          · rintro ⟨hv, j2, hj2, hr⟩
            refine ⟨hv, ?_⟩
            rcases Finset.mem_insert.mp hj2 with rfl | hj2m
            · exact ⟨j, hjP, Relation.ReflTransGen.trans hji hr⟩
            · exact ⟨j2, hj2m, hr⟩
        have hacc2 : acc = ∑ comp ∈
            (insert i P).image (Gaest.component c g),
            ((comp.card : ℤ) - 1) ^ 2 := by
          rw [Finset.image_insert, Finset.insert_eq_self.mpr hmemP]
          exact hacc
        exact ihl (fun x hx => hlt x (List.mem_cons_of_mem i hx))
          (insert i P) nodes acc hlen hmarked2 hacc2
      · rw [if_neg hmk]
        have hmkf : nodes.getD i false = false := by
          cases h : nodes.getD i false
          · rfl
          · exact absurd h hmk
        have hnotP : ∀ j ∈ P,
            ¬ Relation.ReflTransGen (Gaest.adjacent c g) j i := by
          intro j hj hr
          have h2 := (hmarked i).mpr ⟨hi, j, hj, hr⟩
          rw [hmkf] at h2
          exact Bool.false_ne_true h2
        have hfuelb : (Gaest.unvisitedF g.length nodes).card <
            g.length + 1 := by
          have h1 := Finset.card_le_card
            (Finset.filter_subset
              (fun v => nodes.getD v false = false) (Finset.range g.length))
          rw [Finset.card_range] at h1
          exact lt_of_le_of_lt h1 (by omega)
        obtain ⟨tA, tB, tC, tD, tE, tF⟩ :=
          Gaest.tc_spec (Gaest.buildEdges c g).2 g.length hrangeE
            (g.length + 1) nodes i hlen hfuelb hi
        have hreach_marked : ∀ v,
            Relation.ReflTransGen (Gaest.adjacent c g) i v →
            (Gaest.traversecluster (Gaest.buildEdges c g).2
              (g.length + 1) nodes i).1.getD v false = true := by
          intro v hv
          induction hv with
          | refl => exact tD
          | @tail b2 c2 hxy hadj ih =>
            by_cases hx : nodes.getD b2 false = true
            · exfalso
              obtain ⟨-, j2, hj2, hrj⟩ := (hmarked b2).mp hx
              exact hnotP j2 hj2 (Relation.ReflTransGen.trans hrj
                (Gaest.reach_symm c g i b2 hxy))
            · have hxf : nodes.getD b2 false = false := by
                cases h : nodes.getD b2 false
                · rfl
                · exact absurd h hx
              exact tE b2 c2 hxf ih
                ((Gaest.mem_buildEdges c g hg b2 c2).mpr hadj)
        have hRAiff : ∀ v,
            ((Gaest.traversecluster (Gaest.buildEdges c g).2
              (g.length + 1) nodes i).1.getD v false = true ↔
            (nodes.getD v false = true ∨
              Relation.ReflTransGen (Gaest.adjacent c g) i v)) := by
          intro v
          constructor
          · intro hv
            rcases tC v hv with h | ⟨-, hpath⟩
            · exact Or.inl h
            · refine Or.inr (Relation.ReflTransGen.mono ?_ hpath)
              intro x y hxy
              exact (Gaest.mem_buildEdges c g hg x y).mp hxy.1
          · rintro (hv | hpath)
            · exact tB v hv
            · exact hreach_marked v hpath
        have hmarked2 : ∀ v,
            (Gaest.traversecluster (Gaest.buildEdges c g).2
              (g.length + 1) nodes i).1.getD v false = true ↔
            (v < g.length ∧ ∃ j2 ∈ insert i P,
              Relation.ReflTransGen (Gaest.adjacent c g) j2 v) := by
          intro v
          rw [hRAiff v]
          constructor
          · rintro (hv | hp)
            · obtain ⟨hvl, j2, hj2, hr⟩ := (hmarked v).mp hv
              exact ⟨hvl, j2, Finset.mem_insert_of_mem hj2, hr⟩
            · have hvl : v < g.length := by
                rcases Relation.ReflTransGen.cases_tail hp with
                  heq | ⟨m, -, hadj⟩
                · rw [heq]; exact hi
                · exact (Gaest.adjacent_lt c g hg m v hadj).2
              exact ⟨hvl, i, Finset.mem_insert_self i P, hp⟩
          · rintro ⟨hvl, j2, hj2, hr⟩
            rcases Finset.mem_insert.mp hj2 with rfl | hj2m
            · exact Or.inr hr
            · exact Or.inl ((hmarked v).mpr ⟨hvl, j2, hj2m, hr⟩)
        have hcompsub : Gaest.component c g i ⊆
            Gaest.unvisitedF g.length nodes := by
          intro v hv
          rw [Gaest.mem_component] at hv
          rw [Gaest.mem_unvisitedF]
          refine ⟨hv.1, ?_⟩
          cases hnv : nodes.getD v false
          · rfl
          · exfalso
            obtain ⟨-, j2, hj2, hrj⟩ := (hmarked v).mp hnv
            exact hnotP j2 hj2 (Relation.ReflTransGen.trans hrj
              (Gaest.reach_symm c g i v
                ((Gaest.reachB_iff c g hg i v).mp hv.2)))
        have hUnew : Gaest.unvisitedF g.length
            (Gaest.traversecluster (Gaest.buildEdges c g).2
              (g.length + 1) nodes i).1 =
            Gaest.unvisitedF g.length nodes \ Gaest.component c g i := by
          ext v
          rw [Gaest.mem_unvisitedF, Finset.mem_sdiff, Gaest.mem_unvisitedF,
            Gaest.mem_component]
          constructor
          · rintro ⟨hvl, hvf⟩
            have hnm : ¬ ((Gaest.traversecluster (Gaest.buildEdges c g).2
                (g.length + 1) nodes i).1.getD v false = true) := by
              rw [hvf]
              exact Bool.false_ne_true
            rw [hRAiff v] at hnm
            obtain ⟨h1, h2⟩ := not_or.mp hnm
            refine ⟨⟨hvl, ?_⟩, ?_⟩
            · cases hnv : nodes.getD v false
              · rfl
              · exact absurd hnv h1
            · rintro ⟨-, hrB⟩
              exact h2 ((Gaest.reachB_iff c g hg i v).mp hrB)
          · rintro ⟨⟨hvl, hvf⟩, hnc⟩
            refine ⟨hvl, ?_⟩
            cases hres : (Gaest.traversecluster (Gaest.buildEdges c g).2
                (g.length + 1) nodes i).1.getD v false
            · rfl
            · exfalso
              rcases (hRAiff v).mp hres with h | h
              · rw [hvf] at h
                exact Bool.false_ne_true h
              · exact hnc ⟨hvl, (Gaest.reachB_iff c g hg i v).mpr h⟩
        have hcnt : (Gaest.traversecluster (Gaest.buildEdges c g).2
            (g.length + 1) nodes i).2.1 =
            (Gaest.component c g i).card := by
          rw [hUnew, Finset.card_sdiff hcompsub] at tF
          have hle := Finset.card_le_card hcompsub
          omega
        have hnotin : Gaest.component c g i ∉
            P.image (Gaest.component c g) := by
          intro hmem
          obtain ⟨j, hjP, hje⟩ := Finset.mem_image.mp hmem
          have hii : i ∈ Gaest.component c g i := by
            rw [Gaest.mem_component]
            exact ⟨hi, (Gaest.reachB_iff c g hg i i).mpr
              Relation.ReflTransGen.refl⟩
          rw [← hje, Gaest.mem_component] at hii
          exact hnotP j hjP ((Gaest.reachB_iff c g hg j i).mp hii.2)
        have hacc2 : acc + (((Gaest.traversecluster
            (Gaest.buildEdges c g).2 (g.length + 1) nodes i).2.1 : ℤ) - 1)
            ^ 2 = ∑ comp ∈ (insert i P).image (Gaest.component c g),
            ((comp.card : ℤ) - 1) ^ 2 := by
          rw [Finset.image_insert, Finset.sum_insert hnotin, hacc, hcnt]
          ring
        exact ihl (fun x hx => hlt x (List.mem_cons_of_mem i hx))
          (insert i P)
          (Gaest.traversecluster (Gaest.buildEdges c g).2
            (g.length + 1) nodes i).1
          (acc + (((Gaest.traversecluster (Gaest.buildEdges c g).2
            (g.length + 1) nodes i).2.1 : ℤ) - 1) ^ 2)
          tA hmarked2 hacc2
  have hrep : ∀ v, (List.replicate g.length false).getD v false = false := by
    intro v
    rcases lt_or_le v g.length with h | h
    · simp [List.getD, List.getElem?_replicate, h]
    · rw [List.getD_eq_default]
      rw [List.length_replicate]
      omega
  have h := loop
    (fun st i =>
      if st.1.getD i false then st
      else
        ((Gaest.traversecluster (Gaest.buildEdges c g).2
            (g.length + 1) st.1 i).1,
          st.2 + (((Gaest.traversecluster (Gaest.buildEdges c g).2
            (g.length + 1) st.1 i).2.1 : ℤ) - 1) ^ 2))
    (fun _ _ _ => rfl)
    (List.range g.length) (fun x hx => List.mem_range.mp hx)
    ∅ (List.replicate g.length false) 0
    (List.length_replicate g.length false)
    (by
      intro v
      rw [hrep v]
      constructor
      · intro hcon
        exact absurd hcon Bool.false_ne_true
      · rintro ⟨-, j, hj, -⟩
        exact absurd hj (Finset.not_mem_empty j))
    (by rw [Finset.image_empty, Finset.sum_empty])
  rw [show Gaest.objective c g =
    (List.foldl
      (fun st i =>
        if st.1.getD i false then st
        else
          ((Gaest.traversecluster (Gaest.buildEdges c g).2
              (g.length + 1) st.1 i).1,
            st.2 + (((Gaest.traversecluster (Gaest.buildEdges c g).2
              (g.length + 1) st.1 i).2.1 : ℤ) - 1) ^ 2))
      (List.replicate g.length false, 0) (List.range g.length)).2 from rfl]
  rw [h, Finset.empty_union,
    show (List.range g.length).toFinset = Finset.range g.length from by
      ext y
      rw [List.mem_toFinset, List.mem_range, Finset.mem_range]]
  rfl

/-- C7 witness: the claim's own three-sequence instance. With cached
verdicts true for the unordered pairs {0,1} and {1,2} and false for
{0,2}: the genome [1,0,1] produces edges {0-1, 1-2} and scores
(3-1)^2 = 4, the genome [1,0,0] produces only {0-1} and scores 1, and
the genome [0,1,0] produces no true edge and scores 0 — on both the
code's objective and the spec's component sum. -/
theorem c7_objective_components_witness :
    (∀ x ∈ ([1, 0, 1] : List ℕ), x < ([1, 0, 1] : List ℕ).length) ∧
    Gaest.objective [((0, 1), true), ((1, 0), true), ((1, 2), true),
      ((2, 1), true), ((0, 2), false), ((2, 0), false)] [1, 0, 1] = 4 ∧
    Gaest.specObjective [((0, 1), true), ((1, 0), true), ((1, 2), true),
      ((2, 1), true), ((0, 2), false), ((2, 0), false)] [1, 0, 1] = 4 ∧
    Gaest.objective [((0, 1), true), ((1, 0), true), ((1, 2), true),
      ((2, 1), true), ((0, 2), false), ((2, 0), false)] [1, 0, 0] = 1 ∧
    Gaest.specObjective [((0, 1), true), ((1, 0), true), ((1, 2), true),
      ((2, 1), true), ((0, 2), false), ((2, 0), false)] [1, 0, 0] = 1 ∧
    Gaest.objective [((0, 1), true), ((1, 0), true), ((1, 2), true),
      ((2, 1), true), ((0, 2), false), ((2, 0), false)] [0, 1, 0] = 0 ∧
    Gaest.specObjective [((0, 1), true), ((1, 0), true), ((1, 2), true),
      ((2, 1), true), ((0, 2), false), ((2, 0), false)] [0, 1, 0] = 0 := by
  have h1 : Gaest.objective [((0, 1), true), ((1, 0), true), ((1, 2), true),
      ((2, 1), true), ((0, 2), false), ((2, 0), false)] [1, 0, 1] = 4 := by
    decide
  have s1 : Gaest.specObjective [((0, 1), true), ((1, 0), true),
      ((1, 2), true), ((2, 1), true), ((0, 2), false), ((2, 0), false)]
      [1, 0, 1] = 4 := by
    rw [← c7_objective_components [((0, 1), true), ((1, 0), true),
      ((1, 2), true), ((2, 1), true), ((0, 2), false), ((2, 0), false)]
      [1, 0, 1] (by decide)]
    exact h1
  have h2 : Gaest.objective [((0, 1), true), ((1, 0), true), ((1, 2), true),
      ((2, 1), true), ((0, 2), false), ((2, 0), false)] [1, 0, 0] = 1 := by
    decide
  have s2 : Gaest.specObjective [((0, 1), true), ((1, 0), true),
      ((1, 2), true), ((2, 1), true), ((0, 2), false), ((2, 0), false)]
      [1, 0, 0] = 1 := by
    rw [← c7_objective_components [((0, 1), true), ((1, 0), true),
      ((1, 2), true), ((2, 1), true), ((0, 2), false), ((2, 0), false)]
      [1, 0, 0] (by decide)]
    exact h2
  have h3 : Gaest.objective [((0, 1), true), ((1, 0), true), ((1, 2), true),
      ((2, 1), true), ((0, 2), false), ((2, 0), false)] [0, 1, 0] = 0 := by
    decide
  have s3 : Gaest.specObjective [((0, 1), true), ((1, 0), true),
      ((1, 2), true), ((2, 1), true), ((0, 2), false), ((2, 0), false)]
      [0, 1, 0] = 0 := by
    rw [← c7_objective_components [((0, 1), true), ((1, 0), true),
      ((1, 2), true), ((2, 1), true), ((0, 2), false), ((2, 0), false)]
      [0, 1, 0] (by decide)]
    exact h3
  exact ⟨by decide, h1, s1, h2, s2, h3, s3⟩
